import Mathlib

/-!
Verification of the claude-code-proxy translation core.

This file gives a shallow embedding, in Lean 4, of the translation and
streaming engine of the proxy:

* `src/core/token_estimator.py` — the token-count estimator,
* `src/conversion/response_converter.py` — the non-streaming response
  translator and the two streaming translators (the basic one and the
  cancellation-aware one),
* `src/core/client.py` — the registry bookkeeping of the completion client.

Python `dict` payloads are embedded as structures with `Option` fields
(`none` = key absent or `null` where the two are indistinguishable to the
code under study); Python string truthiness (`if s:`) is embedded as
`(·.getD "") ≠ ""`; machine integers are `Int`/`Nat` (no overflow is
possible in the modelled code paths); `json.loads`-validity of a string is
a parameter `jv : String → Bool` of the streaming model, instantiated for
concrete runs with `pyJsonValid`, an executable JSON syntax checker
modelling the Python `json` grammar.
-/

namespace CCProxy

/-- Modelled from the spec: the string constants of `src/core/constants.py`
(the file itself is not among the sources here); the values are the event
names, block types and stop reasons the spec lists in §6 and §4.2. -/
def STOP_END_TURN : String := "end_turn"

/-- Modelled from the spec: stop reason for a length-limited completion. -/
def STOP_MAX_TOKENS : String := "max_tokens"

/-- Modelled from the spec: stop reason for a tool-call completion. -/
def STOP_TOOL_USE : String := "tool_use"

/-! ## Token estimator (`src/core/token_estimator.py`) -/

/-- A character in the CJK range used by `estimate_text_tokens`
(the Python regex `[一-鿿]`). -/
def isCJKChar (c : Char) : Bool := 0x4e00 ≤ c.toNat && c.toNat ≤ 0x9fff

/-- `TokenEstimator.estimate_text_tokens` restricted to string input
(`token_estimator.py` lines 21–75, `isinstance(text, str)` branch).
The Python float divisions `total/1.2`, `total/4.0`, `total/2.5` followed by
`int(...)` are embedded as the exact natural-number floors `5*total/6`,
`total/4`, `2*total/5`, and the float ratio comparisons
`chinese/total > 0.7`, `chinese/total < 0.1` as the exact comparisons
`10*chinese > 7*total`, `10*chinese < total`; for the character counts a
string can have, the float computations agree with these exact values. -/
def estimate_text_tokens (s : String) : Nat :=
  if s.length = 0 then 0
  else
    let total := s.length
    let chinese := (s.data.filter isCJKChar).length
    if 10 * chinese > 7 * total then max 1 (5 * total / 6)
    else if 10 * chinese < total then max 1 (total / 4)
    else max 1 (2 * total / 5)

/-- One item of a Claude message's content list, as far as
`estimate_messages_tokens` inspects it: a dict carrying a `text` field, a
plain string, or anything else (contributing nothing). -/
inductive MsgContentItem where
  | textDict (text : String)
  | plain (s : String)
  | otherItem
deriving DecidableEq

/-- A Claude message's `content`: either a string or a list of items. -/
inductive MsgContent where
  | str (s : String)
  | items (l : List MsgContentItem)
deriving DecidableEq

/-- Modelled from the spec: one entry of the request's message list
(`src/models/claude.py` is not among the sources here); per spec §3 a
message has a role and textual content. -/
structure ClaudeMessage where
  role : Option String
  content : Option MsgContent
deriving DecidableEq

/-- Modelled from the spec: the Claude-side request
(`src/models/claude.py` is not among the sources here); per spec §3/§4.4
the parts the core reads are the model id, the message list, the system
prompt and `max_tokens`. -/
structure ClaudeMessagesRequest where
  model : String
  messages : List ClaudeMessage
  system : Option String
  max_tokens : Nat
deriving DecidableEq

/-- The token estimate of one message's content
(`estimate_messages_tokens` body, lines 89–105). -/
def estimate_message_tokens (m : ClaudeMessage) : Nat :=
  (if m.role.isSome then 1 else 0) +
  (match m.content with
   | some (.str s) => estimate_text_tokens s
   | some (.items l) =>
       (l.map (fun it => match it with
         | .textDict t => estimate_text_tokens t
         | .plain s => estimate_text_tokens s
         | .otherItem => 0)).sum
   | none => 0)

/-- `TokenEstimator.estimate_messages_tokens` (lines 77–111): per-message
estimates plus a 3-token overhead per message, at least 1. -/
def estimate_messages_tokens (msgs : List ClaudeMessage) : Nat :=
  max 1 ((msgs.map estimate_message_tokens).sum + 3 * msgs.length)

/-- `TokenEstimator.estimate_request_input_tokens` (lines 113–137):
message estimate (skipped for an empty message list) plus system-prompt
estimate (skipped for an absent or empty system prompt) plus a fixed
5-token overhead, at least 1. -/
def estimate_request_input_tokens (req : ClaudeMessagesRequest) : Nat :=
  let t := if req.messages ≠ [] then estimate_messages_tokens req.messages else 0
  let t := t + (match req.system with
    | some s => if s ≠ "" then estimate_text_tokens s else 0
    | none => 0)
  max 1 (t + 5)

/-- `estimate_input_tokens` (token_estimator.py lines 156–158). -/
def estimate_input_tokens (req : ClaudeMessagesRequest) : Nat :=
  estimate_request_input_tokens req

/-- `estimate_output_tokens` (token_estimator.py lines 161–163). -/
def estimate_output_tokens (s : String) : Nat := estimate_text_tokens s

/-! ## A JSON validity checker modelling Python `json.loads`

The streaming translators only ever use the *success or failure* of
`json.loads` on the accumulated argument buffer, never the parsed value, so
the embedding only needs a validity checker.  The checker below follows the
grammar Python's `json` module accepts on string input in its default
strict mode: objects, arrays, strings with escapes, numbers without leading
zeros, `true`/`false`/`null`, and the non-standard constants `NaN`,
`Infinity`, `-Infinity`; whitespace is space, tab, LF, CR; control
characters below U+0020 are rejected inside strings.  Recursion is by an
explicit fuel argument. -/

/-- JSON whitespace skipping. -/
def skipWs : List Char → List Char
  | c :: cs => if c = ' ' ∨ c = '\t' ∨ c = '\n' ∨ c = '\r' then skipWs cs else c :: cs
  | [] => []

/-- Hexadecimal digit test for `\uXXXX` escapes. -/
def isHexDigit (c : Char) : Bool :=
  ('0' ≤ c && c ≤ '9') || ('a' ≤ c && c ≤ 'f') || ('A' ≤ c && c ≤ 'F')

/-- Decimal digit test. -/
def isDigitCh (c : Char) : Bool := '0' ≤ c && c ≤ '9'

/-- Consume the rest of a JSON string after the opening quote; returns the
remaining input on success. -/
def parseStringRest (fuel : Nat) (cs : List Char) : Option (List Char) :=
  match fuel, cs with
  | 0, _ => none
  | _, [] => none
  | fuel + 1, c :: cs =>
    if c = '"' then some cs
    else if c = '\\' then
      match cs with
      | [] => none
      | e :: cs' =>
        if e = '"' ∨ e = '\\' ∨ e = '/' ∨ e = 'b' ∨ e = 'f' ∨ e = 'n' ∨ e = 'r' ∨ e = 't' then
          parseStringRest fuel cs'
        else if e = 'u' then
          match cs' with
          | h1 :: h2 :: h3 :: h4 :: cs'' =>
            if isHexDigit h1 && isHexDigit h2 && isHexDigit h3 && isHexDigit h4 then
              parseStringRest fuel cs''
            else none
          | _ => none
        else none
    else if c.toNat < 0x20 then none
    else parseStringRest fuel cs

/-- Consume one or more decimal digits. -/
def parseDigits (fuel : Nat) (cs : List Char) : Option (List Char) :=
  match fuel, cs with
  | 0, _ => none
  | _, [] => none
  | fuel + 1, c :: cs =>
    if isDigitCh c then
      match cs with
      | c' :: _ => if isDigitCh c' then parseDigits fuel cs else some cs
      | [] => some []
    else none

/-- Consume the integer part of a JSON number (no leading zeros). -/
def parseIntPart (fuel : Nat) (cs : List Char) : Option (List Char) :=
  match cs with
  | [] => none
  | c :: cs' =>
    if c = '0' then some cs'
    else if isDigitCh c then
      match cs' with
      | c' :: _ => if isDigitCh c' then parseDigits fuel cs' else some cs'
      | [] => some []
    else none

/-- Consume the optional fraction part. -/
def parseFracPart (fuel : Nat) (cs : List Char) : Option (List Char) :=
  match cs with
  | '.' :: cs' => parseDigits fuel cs'
  | _ => some cs

/-- Consume the optional exponent part. -/
def parseExpPart (fuel : Nat) (cs : List Char) : Option (List Char) :=
  match cs with
  | c :: cs' =>
    if c = 'e' ∨ c = 'E' then
      match cs' with
      | s :: cs'' => if s = '+' ∨ s = '-' then parseDigits fuel cs'' else parseDigits fuel cs'
      | [] => none
    else some cs
  | [] => some []

/-- Literal-prefix test. -/
def dropLit : List Char → List Char → Option (List Char)
  | [], cs => some cs
  | _, [] => none
  | l :: ls, c :: cs => if l = c then dropLit ls cs else none

mutual

/-- Consume one JSON value (leading whitespace allowed). -/
def parseVal (fuel : Nat) (cs : List Char) : Option (List Char) :=
  match fuel with
  | 0 => none
  | fuel + 1 =>
    match skipWs cs with
    | [] => none
    | c :: cs' =>
      if c = '{' then
        match skipWs cs' with
        | '}' :: rest => some rest
        | rest => parseMembers fuel rest
      else if c = '[' then
        match skipWs cs' with
        | ']' :: rest => some rest
        | rest => parseElems fuel rest
      else if c = '"' then parseStringRest fuel cs'
      else if c = 't' then dropLit ['r', 'u', 'e'] cs'
      else if c = 'f' then dropLit ['a', 'l', 's', 'e'] cs'
      else if c = 'n' then dropLit ['u', 'l', 'l'] cs'
      else if c = 'N' then dropLit ['a', 'N'] cs'
      else if c = 'I' then dropLit ['n', 'f', 'i', 'n', 'i', 't', 'y'] cs'
      else if c = '-' then
        match cs' with
        | 'I' :: cs'' => dropLit ['n', 'f', 'i', 'n', 'i', 't', 'y'] cs''
        | _ => do parseExpPart fuel (← parseFracPart fuel (← parseIntPart fuel cs'))
      else if isDigitCh c then
        do parseExpPart fuel (← parseFracPart fuel (← parseIntPart fuel (c :: cs')))
      else none

/-- Consume the members of an object after `{` (first member expected). -/
def parseMembers (fuel : Nat) (cs : List Char) : Option (List Char) :=
  match fuel with
  | 0 => none
  | fuel + 1 =>
    match cs with
    | '"' :: cs' =>
      match parseStringRest fuel cs' with
      | none => none
      | some rest =>
        match skipWs rest with
        | ':' :: rest' =>
          match parseVal fuel rest' with
          | none => none
          | some rest'' =>
            match skipWs rest'' with
            | ',' :: rest''' => parseMembers fuel (skipWs rest''')
            | '}' :: rest''' => some rest'''
            | _ => none
        | _ => none
    | _ => none

/-- Consume the elements of an array after `[` (first element expected). -/
def parseElems (fuel : Nat) (cs : List Char) : Option (List Char) :=
  match fuel with
  | 0 => none
  | fuel + 1 =>
    match parseVal fuel cs with
    | none => none
    | some rest =>
      match skipWs rest with
      | ',' :: rest' => parseElems fuel rest'
      | ']' :: rest' => some rest'
      | _ => none

end

/-- Success of Python `json.loads` on a string, as a Boolean: one JSON
value surrounded by optional whitespace and nothing else. -/
def pyJsonValid (s : String) : Bool :=
  match parseVal (4 * s.length + 16) s.data with
  | some rest => skipWs rest = []
  | none => false

/-! ## Data model of the streaming translators
(`src/conversion/response_converter.py`) -/

/-- The inline error object of a backend chunk (`chunk["error"]`,
response_converter.py lines 347–351). -/
structure ChunkError where
  etype : Option String
  emsg : Option String
deriving DecidableEq

/-- One element of `delta["tool_calls"]` as the translators read it:
`index` (read with default 0), `id` (set only when truthy), the function
name, and the function arguments.  `arguments : Option (Option String)`
distinguishes an absent key (outer `none`) from a key present with `null`
(inner `none`), because the two translators treat `null` differently
(lines 221 vs 432). -/
structure ToolCallDelta where
  index : Option Nat
  tcId : Option String
  fname : Option String
  arguments : Option (Option String)
deriving DecidableEq

/-- `choice["delta"]`: optional text content and optional tool-call list
(`none` = key absent, or `null` for `tool_calls` where both translators
either skip or are not exercised by the claims). -/
structure ChunkDelta where
  content : Option String
  toolCalls : Option (List ToolCallDelta)
deriving DecidableEq

/-- One element of `chunk["choices"]`. -/
structure ChunkChoice where
  delta : ChunkDelta
  finishReason : Option String
deriving DecidableEq

/-- `chunk["usage"]`: optional per-key token counts. -/
structure ChunkUsage where
  promptTokens : Option Int
  completionTokens : Option Int
deriving DecidableEq

/-- A parsed streaming chunk.  `usage = none` embeds both an absent and an
empty (hence falsy) usage dict. -/
structure Chunk where
  error : Option ChunkError
  choices : List ChunkChoice
  usage : Option ChunkUsage
deriving DecidableEq

/-- One line pulled from the backend stream, after the line-level
dispatching both translators perform: blank lines, non-`data:` lines and
lines whose payload fails to parse are all skipped (`skip`); the literal
`[DONE]` sentinel breaks the loop (`done`); anything else is a chunk. -/
inductive Line where
  | skip
  | done
  | chunk (c : Chunk)
deriving DecidableEq

/-- The target-protocol events the translators emit (the SSE payloads of
response_converter.py, tagged by their `type`). -/
inductive Event where
  | messageStart
  | contentBlockStartText (index : Nat)
  | contentBlockStartTool (index : Nat) (tcId : String) (name : String)
  | ping
  | textDelta (index : Nat) (text : String)
  | inputJsonDelta (index : Nat) (pjson : String)
  | contentBlockStop (index : Nat)
  | messageDelta (stopReason : String) (inputTokens outputTokens : Int)
  | messageStop
  | errorEvent (etype emsg : String)
deriving DecidableEq

/-- Per-tool-call accumulator (`current_tool_calls[tc_index]`,
lines 190–198). -/
structure ToolCallState where
  tcId : Option String
  name : Option String
  argsBuffer : String
  jsonSent : Bool
  claudeIndex : Option Nat
  started : Bool
deriving DecidableEq

/-- A fresh accumulator, as initialised on first sight of an index. -/
def freshToolCall : ToolCallState :=
  ⟨none, none, "", false, none, false⟩

/-- The streaming loop state shared by both translators
(lines 133–140 / 317–324). -/
structure StreamState where
  toolBlockCounter : Nat
  toolCalls : List (Nat × ToolCallState)
  finalStopReason : String
  totalInputTokens : Int
  totalOutputTokens : Int
deriving DecidableEq

/-- `text_block_index` (line 133): the text block is always block 0. -/
def textBlockIndex : Nat := 0

/-- The initial loop state. -/
def initStreamState : StreamState :=
  ⟨0, [], STOP_END_TURN, 0, 0⟩

/-! The Python `current_tool_calls` dict, keyed by tool-call index, is
embedded as an insertion-ordered association list with unique keys —
exactly the observable behaviour of a Python `dict`. -/

/-- First-match association-list lookup (Python `d[k]` / `k in d`). -/
def lookupAssoc : List (Nat × ToolCallState) → Nat → Option ToolCallState
  | [], _ => none
  | (k', v) :: rest, k => if k' = k then some v else lookupAssoc rest k

/-- In-place value replacement at a key (Python `d[k] = v` for present
keys). -/
def updateAssoc : List (Nat × ToolCallState) → Nat → ToolCallState →
    List (Nat × ToolCallState)
  | [], _, _ => []
  | (k', v) :: rest, k, v' =>
    if k' = k then (k', v') :: rest else (k', v) :: updateAssoc rest k v'

/-- `if tc_index not in current_tool_calls: current_tool_calls[tc_index] =
{...fresh...}` (lines 190–198): Python dicts append new keys at the end. -/
def ensureEntry (tcs : List (Nat × ToolCallState)) (k : Nat) :
    List (Nat × ToolCallState) :=
  match lookupAssoc tcs k with
  | some _ => tcs
  | none => tcs ++ [(k, freshToolCall)]

/-- Merging an incoming tool-call delta's id and name into the accumulator
(lines 202–209): each is stored only when the incoming value is truthy. -/
def mergeIdName (tc : ToolCallState) (d : ToolCallDelta) : ToolCallState :=
  let tc := if (d.tcId.getD "") ≠ "" then { tc with tcId := d.tcId } else tc
  if (d.fname.getD "") ≠ "" then { tc with name := d.fname } else tc

/-- Starting the tool-use content block once both id and name are known
(lines 211–218): increments the block counter, assigns
`claude_index = text_block_index + tool_block_counter`, marks the
accumulator started and emits the `content_block_start`. -/
def maybeStart (counter : Nat) (tc : ToolCallState) :
    List Event × Nat × ToolCallState :=
  if (tc.tcId.getD "") ≠ "" ∧ (tc.name.getD "") ≠ "" ∧ tc.started = false then
    let ci := textBlockIndex + (counter + 1)
    ([Event.contentBlockStartTool ci (tc.tcId.getD "") (tc.name.getD "")],
     counter + 1,
     { tc with claudeIndex := some ci, started := true })
  else ([], counter, tc)

/-- Argument-fragment handling for a started tool call (lines 221–233 /
432–444): append the fragment to the buffer; if the whole buffer now
parses as JSON and no delta has been sent yet for this tool call, emit one
`content_block_delta` carrying the entire buffer and mark it sent. -/
def handleArguments (jv : String → Bool) (tc : ToolCallState) (frag : String) :
    ToolCallState × List Event :=
  let tc := { tc with argsBuffer := tc.argsBuffer ++ frag }
  if jv tc.argsBuffer then
    if tc.jsonSent then (tc, [])
    else ({ tc with jsonSent := true },
          [Event.inputJsonDelta (tc.claudeIndex.getD 0) tc.argsBuffer])
  else (tc, [])

/-- Whether we are modelling the cancellation-aware translator
(`convert_openai_streaming_to_claude_with_cancellation`) rather than the
basic one; the two differ only in the guards noted at each use site. -/
abbrev Variant := Bool

/-- Processing of one element of `delta["tool_calls"]`
(lines 186–233 / 397–444).  The return flag is `true` when the basic
translator would raise `TypeError` by concatenating `None` onto the
buffer (line 222; the cancellation-aware translator guards against this
with `function_data["arguments"] is not None`, line 432). -/
def processOneToolDelta (variant : Variant) (jv : String → Bool)
    (counter : Nat) (tcs : List (Nat × ToolCallState)) (d : ToolCallDelta) :
    List Event × Nat × List (Nat × ToolCallState) × Bool :=
  let k := d.index.getD 0
  let tcs1 := ensureEntry tcs k
  let tc1 := mergeIdName ((lookupAssoc tcs1 k).getD freshToolCall) d
  let ms := maybeStart counter tc1
  match d.arguments with
  | some (some s) =>
    if ms.2.2.started then
      let ha := handleArguments jv ms.2.2 s
      (ms.1 ++ ha.2, ms.2.1, updateAssoc tcs1 k ha.1, false)
    else (ms.1, ms.2.1, updateAssoc tcs1 k ms.2.2, false)
  | some none =>
    if ms.2.2.started ∧ variant = false then
      -- basic translator: `tool_call["args_buffer"] += None` raises
      (ms.1, ms.2.1, updateAssoc tcs1 k ms.2.2, true)
    else (ms.1, ms.2.1, updateAssoc tcs1 k ms.2.2, false)
  | none => (ms.1, ms.2.1, updateAssoc tcs1 k ms.2.2, false)

/-- The `for tc_delta in delta["tool_calls"]` loop, aborted by the
`TypeError` of the basic translator when it occurs. -/
def processToolDeltas (variant : Variant) (jv : String → Bool)
    (counter : Nat) (tcs : List (Nat × ToolCallState)) :
    List ToolCallDelta → List Event × Nat × List (Nat × ToolCallState) × Bool
  | [] => ([], counter, tcs, false)
  | d :: ds =>
    let r := processOneToolDelta variant jv counter tcs d
    if r.2.2.2 then r
    else
      let r2 := processToolDeltas variant jv r.2.1 r.2.2.1 ds
      (r.1 ++ r2.1, r2.2.1, r2.2.2.1, r2.2.2.2)

/-- The usage-extraction step (lines 160–168 / 371–379): a positive
`prompt_tokens` / `completion_tokens` overwrites the corresponding running
total; zero, absent or an entirely falsy usage dict leaves it unchanged. -/
def updateUsage (st : StreamState) (u : Option ChunkUsage) : StreamState :=
  match u with
  | none => st
  | some u =>
    let st := if 0 < u.promptTokens.getD 0 then
        { st with totalInputTokens := u.promptTokens.getD 0 } else st
    if 0 < u.completionTokens.getD 0 then
      { st with totalOutputTokens := u.completionTokens.getD 0 } else st

/-- The streaming finish-reason table (lines 236–245 / 447–456). -/
def mapStreamFinish (s : String) : String :=
  if s = "length" then STOP_MAX_TOKENS
  else if s = "tool_calls" ∨ s = "function_call" then STOP_TOOL_USE
  else if s = "stop" then STOP_END_TURN
  else STOP_END_TURN

/-- Finish handling (lines 235–245): a truthy finish reason stores its
mapping and breaks the loop (`true`); otherwise the state is unchanged. -/
def applyFinishReason (st : StreamState) (fr : Option String) :
    StreamState × Bool :=
  if (fr.getD "") ≠ "" then
    ({ st with finalStopReason := mapStreamFinish (fr.getD "") }, true)
  else (st, false)

/-- What a processed chunk tells the loop to do next. -/
inductive Signal where
  | next
  | stop
  | fail
deriving DecidableEq

/-- The Python text of the `TypeError` the basic translator raises when a
`null` argument fragment is concatenated, as wrapped by its
`except Exception` handler (lines 247–257). -/
def streamTypeErrorMsg : String :=
  "Streaming error: can only concatenate str (not \x22NoneType\x22) to str"

/-- The tool-call phase of one chunk: the guarded iteration over
`delta["tool_calls"]` (basic: key present, lines 185–186; cancellation-
aware: key present and truthy, lines 396–397). -/
def toolPhase (variant : Variant) (jv : String → Bool) (st : StreamState)
    (tcd : Option (List ToolCallDelta)) :
    List Event × Nat × List (Nat × ToolCallState) × Bool :=
  match tcd with
  | some tds =>
    if variant = true ∧ tds = [] then ([], st.toolBlockCounter, st.toolCalls, false)
    else processToolDeltas variant jv st.toolBlockCounter st.toolCalls tds
  | none => ([], st.toolBlockCounter, st.toolCalls, false)

/-- Processing of one chunk (loop body, lines 153–245 / 343–456).
The cancellation-aware variant first turns an inline `{"error": ...}`
payload into a single error event and ends the stream (lines 346–364);
the basic variant has no such check, so such a chunk falls through to the
empty-`choices` skip.  Chunks without choices are skipped entirely —
including their usage object, which is only read after the choices guard
(lines 155–168 / 366–379). -/
def processChunk (variant : Variant) (jv : String → Bool)
    (st : StreamState) (c : Chunk) : List Event × StreamState × Signal :=
  if variant = true ∧ c.error.isSome then
    let e := c.error.getD ⟨none, none⟩
    ([Event.errorEvent (e.etype.getD "unknown_error")
        (e.emsg.getD "Unknown error occurred")], st, Signal.fail)
  else
    match c.choices with
    | [] => ([], st, Signal.next)
    | choice :: _ =>
      let st := updateUsage st c.usage
      let textEvs :=
        if (choice.delta.content.getD "") ≠ "" then
          [Event.textDelta textBlockIndex (choice.delta.content.getD "")]
        else []
      let r := toolPhase variant jv st choice.delta.toolCalls
      let st := { st with toolBlockCounter := r.2.1, toolCalls := r.2.2.1 }
      if r.2.2.2 then
        (textEvs ++ r.1 ++ [Event.errorEvent "api_error" streamTypeErrorMsg],
         st, Signal.fail)
      else
        let ar := applyFinishReason st choice.finishReason
        (textEvs ++ r.1, ar.1, if ar.2 then Signal.stop else Signal.next)

/-- How a streaming loop ended: input exhausted, `break` (on `[DONE]` or a
finish reason), client disconnect (cancellation-aware variant only), or an
error path that skips the closing events. -/
inductive ExitKind where
  | exhausted
  | broke
  | disconnected
  | failed
deriving DecidableEq

/-- The outcome of the chunk-processing loop. -/
structure LoopResult where
  events : List Event
  state : StreamState
  exit : ExitKind
  cancelCalled : Bool
deriving DecidableEq

/-- The `async for line in openai_stream` loop (lines 142–245 / 326–456).
`d k` is the value of `await http_request.is_disconnected()` observed at
the `k`-th iteration; the cancellation-aware variant checks it before
touching the line and, when set, calls `cancel_request` and breaks
(lines 329–332) — recorded in `cancelCalled`.  The basic variant performs
no such check. -/
def runLoop (variant : Variant) (jv : String → Bool) (d : Nat → Bool)
    (k : Nat) (st : StreamState) : List Line → LoopResult
  | [] => ⟨[], st, ExitKind.exhausted, false⟩
  | line :: rest =>
    if variant = true ∧ d k then ⟨[], st, ExitKind.disconnected, true⟩
    else
      match line with
      | Line.skip => runLoop variant jv d (k + 1) st rest
      | Line.done => ⟨[], st, ExitKind.broke, false⟩
      | Line.chunk c =>
        let p := processChunk variant jv st c
        if p.2.2 = Signal.next then
          let r := runLoop variant jv d (k + 1) p.2.1 rest
          ⟨p.1 ++ r.events, r.state, r.exit, r.cancelCalled⟩
        else if p.2.2 = Signal.stop then ⟨p.1, p.2.1, ExitKind.broke, false⟩
        else ⟨p.1, p.2.1, ExitKind.failed, false⟩

/-- The fixed opening events (lines 126–130 / 310–314). -/
def openingEvents : List Event :=
  [Event.messageStart, Event.contentBlockStartText textBlockIndex, Event.ping]

/-- The output indices of the started tool blocks, in accumulator
(insertion) order — the blocks the closing loop stops
(lines 263–265 / 489–491: `started` truthy and `claude_index` not None). -/
def startedIdxs (tcs : List (Nat × ToolCallState)) : List Nat :=
  tcs.filterMap (fun p =>
    if p.2.started then p.2.claudeIndex else none)

/-- The final usage pair (lines 267–285 / 493–511): when estimation is
enabled and both running totals are still zero, the input total is
replaced by the estimator's estimate of the original request and the
output total by `min(max_tokens // 4, 50)`; otherwise the running totals
stand. -/
def finalUsage (enable : Bool) (req : ClaudeMessagesRequest)
    (st : StreamState) : Int × Int :=
  if enable = true ∧ st.totalInputTokens = 0 ∧ st.totalOutputTokens = 0 then
    ((estimate_input_tokens req : Int), (min (req.max_tokens / 4) 50 : Nat))
  else (st.totalInputTokens, st.totalOutputTokens)

/-- The closing events (lines 260–294 / 486–519): stop for the text block,
stop for every started tool block, then `message_delta` with the final
stop reason and usage, then `message_stop`. -/
def closingEvents (enable : Bool) (req : ClaudeMessagesRequest)
    (st : StreamState) : List Event :=
  [Event.contentBlockStop textBlockIndex] ++
  (startedIdxs st.toolCalls).map Event.contentBlockStop ++
  [Event.messageDelta st.finalStopReason (finalUsage enable req st).1
      (finalUsage enable req st).2,
   Event.messageStop]

/-- `convert_openai_streaming_to_claude` (lines 118–294): the basic
streaming translator.  On the error path (`except Exception`,
lines 247–258) the translator returns after the error event, skipping the
closing events. -/
def convert_openai_streaming_to_claude (jv : String → Bool) (enable : Bool)
    (req : ClaudeMessagesRequest) (lines : List Line) : List Event :=
  let r := runLoop false jv (fun _ => false) 0 initStreamState lines
  openingEvents ++ r.events ++
    (if r.exit = ExitKind.failed then [] else closingEvents enable req r.state)

/-- The outcome of the cancellation-aware translator: its event sequence,
how the loop ended, and whether `openai_client.cancel_request` was
invoked. -/
structure CancelConvResult where
  events : List Event
  exit : ExitKind
  cancelCalled : Bool
  state : StreamState
deriving DecidableEq

/-- `convert_openai_streaming_to_claude_with_cancellation`
(lines 297–519): identical to the basic translator except for the
per-iteration disconnect check, the inline-error check and the two guards
noted in `processChunk`/`processOneToolDelta`.  On every error path
(inline error payload, cancellation, unexpected failure; lines 458–484)
the translator returns after the error event, skipping the closing
events; on a disconnect it breaks and still emits the closing events. -/
def convert_openai_streaming_to_claude_with_cancellation
    (jv : String → Bool) (enable : Bool) (req : ClaudeMessagesRequest)
    (lines : List Line) (d : Nat → Bool) : CancelConvResult :=
  let r := runLoop true jv d 0 initStreamState lines
  ⟨openingEvents ++ r.events ++
     (if r.exit = ExitKind.failed then []
      else closingEvents enable req r.state),
   r.exit, r.cancelCalled, r.state⟩

/-! ## Non-streaming translator
(`convert_openai_to_claude_response`, response_converter.py lines 17–115) -/

/-- `tool_call["function"]` of a completed response. -/
structure RespToolFunction where
  name : Option String
  arguments : Option String
deriving DecidableEq

/-- One element of `message["tool_calls"]`. -/
structure RespToolCall where
  ttype : Option String
  tcId : Option String
  function : Option RespToolFunction
deriving DecidableEq

/-- `choice["message"]` (`none` fields embed absent keys; a `null`
`tool_calls` value is normalised to `[]` by the `or []` at line 39). -/
structure RespMessage where
  content : Option String
  toolCalls : List RespToolCall
deriving DecidableEq

/-- One element of `openai_response["choices"]`. -/
structure RespChoice where
  message : Option RespMessage
  finishReason : Option String
deriving DecidableEq

/-- A completed backend response. -/
structure OpenAIResponse where
  choices : List RespChoice
  usage : Option ChunkUsage
deriving DecidableEq

/-- The structured input of a tool-use block: the parsed argument string
when `json.loads` succeeded on it, or the raw-string fallback
`{"raw_arguments": ...}` (lines 43–46).  Only which of the two happened
and the underlying string are observable to the claims. -/
inductive ToolInput where
  | parsed (raw : String)
  | rawWrapped (raw : String)
deriving DecidableEq

/-- A Claude content block of the translated response. -/
inductive ContentBlock where
  | text (s : String)
  | toolUse (tcId : String) (name : String) (input : ToolInput)
deriving DecidableEq

/-- Placeholder for the `uuid.uuid4()` suffix of generated tool ids
(line 51); its concrete value is irrelevant to every claim. -/
def uuidPlaceholder : String := "uuid"

/-- Content-block construction (lines 30–55): a text block when the
message content is truthy, then one tool-use block per tool call of type
`"function"`. -/
def buildContentBlocks (jv : String → Bool) (msg : RespMessage) :
    List ContentBlock :=
  (if (msg.content.getD "") ≠ "" then [ContentBlock.text (msg.content.getD "")]
   else []) ++
  msg.toolCalls.filterMap (fun tc =>
    if tc.ttype = some "function" then
      let fd := tc.function.getD ⟨none, none⟩
      let args := fd.arguments.getD "{}"
      some (ContentBlock.toolUse (tc.tcId.getD ("tool_" ++ uuidPlaceholder))
        (fd.name.getD "")
        (if jv args then ToolInput.parsed args else ToolInput.rawWrapped args))
    else none)

/-- The non-streaming finish-reason table (lines 61–68): a dict lookup
with default `end_turn`, applied to `choice.get("finish_reason", "stop")`. -/
def mapFinishReasonNonStream (fr : Option String) : String :=
  let s := fr.getD "stop"
  if s = "stop" then STOP_END_TURN
  else if s = "length" then STOP_MAX_TOKENS
  else if s = "tool_calls" then STOP_TOOL_USE
  else if s = "function_call" then STOP_TOOL_USE
  else STOP_END_TURN

/-- `should_use_estimation` (token_estimator.py lines 166–183): a falsy
usage dict, or both counts zero or absent. -/
def should_use_estimation (u : Option ChunkUsage) : Bool :=
  match u with
  | none => true
  | some u => u.promptTokens.getD 0 = 0 && u.completionTokens.getD 0 = 0

/-- The translated non-streaming response (ids elided: they are either
copied or freshly generated and no claim mentions them). -/
structure ClaudeResponse where
  content : List ContentBlock
  stopReason : String
  inputTokens : Int
  outputTokens : Int
deriving DecidableEq

/-- `convert_openai_to_claude_response` (lines 17–115).  `Except Nat`
carries the status code of the `HTTPException` raised when the response
has no choices (line 25). -/
def convert_openai_to_claude_response (jv : String → Bool) (enable : Bool)
    (resp : OpenAIResponse) (req : ClaudeMessagesRequest) :
    Except Nat ClaudeResponse :=
  match resp.choices with
  | [] => Except.error 500
  | choice :: _ =>
    let msg := choice.message.getD ⟨none, []⟩
    let blocks := buildContentBlocks jv msg
    let blocks := if blocks = [] then [ContentBlock.text ""] else blocks
    let stopReason := mapFinishReasonNonStream choice.finishReason
    let inTok : Int := (resp.usage.bind (·.promptTokens)).getD 0
    let outTok : Int := (resp.usage.bind (·.completionTokens)).getD 0
    if enable = true ∧ should_use_estimation resp.usage then
      let responseText := String.join (blocks.filterMap (fun b =>
        match b with
        | ContentBlock.text s => some s
        | _ => none))
      Except.ok ⟨blocks, stopReason, (estimate_input_tokens req : Int),
        (estimate_output_tokens responseText : Int)⟩
    else
      Except.ok ⟨blocks, stopReason, inTok, outTok⟩

/-! ## Completion client registry (`src/core/client.py`)

Only the registry discipline of `OpenAIClient` is claimed; the registry
`active_requests` is embedded as the set of request ids currently holding
a cancellation event, and each call as a function of the outcome the
awaited backend interaction would produce. -/

/-- How the awaited completion call ends (lines 56–100): normal
completion, the cancellation event winning the race (raising the 499
`HTTPException`), one of the classified client-library failures, or any
other exception. -/
inductive CallOutcome where
  | success
  | cancelledByEvent
  | authError
  | rateLimitError
  | badRequestError
  | apiError (statusCode : Nat)
  | otherError
deriving DecidableEq

/-- `OpenAIClient.create_chat_completion` (client.py lines 48–105),
restricted to its registry effect and result status: the entry for
`request_id` is inserted before the call and the `finally` block removes
it on every path (lines 102–105).  Error details (the classified message
strings) are elided; only the status code is kept. -/
def create_chat_completion (reg : Finset String) (rid : Option String)
    (outcome : CallOutcome) : Except Nat Unit × Finset String :=
  let reg := match rid with
    | some i => insert i reg
    | none => reg
  let res : Except Nat Unit :=
    match outcome with
    | CallOutcome.success => Except.ok ()
    | CallOutcome.cancelledByEvent => Except.error 499
    | CallOutcome.authError => Except.error 401
    | CallOutcome.rateLimitError => Except.error 429
    | CallOutcome.badRequestError => Except.error 400
    | CallOutcome.apiError sc => Except.error sc
    | CallOutcome.otherError => Except.error 500
  let reg := match rid with
    | some i => reg.erase i
    | none => reg
  (res, reg)

/-- How the streaming generator of the client ends
(client.py lines 107–252): creation failure, a normal run of `n` chunks
ended by `[DONE]`, mid-stream cancellation, a per-chunk timeout, a
classified API failure, or any other exception — every one reaches the
`finally` block when the generator finishes. -/
inductive StreamCallOutcome where
  | creationFailed
  | normalEnd (chunksYielded : Nat)
  | cancelledMidStream (chunksYielded : Nat)
  | timeout (chunksYielded : Nat)
  | apiFailure
  | unexpectedFailure
deriving DecidableEq

/-- `OpenAIClient.create_chat_completion_stream` (client.py
lines 107–252), restricted to its registry effect and the shape of its
yielded line sequence (chunk payloads abstracted to a count; error
payloads to a tag): the entry for `request_id` is inserted before the
call and the `finally` block removes it when the generator terminates on
any of its paths (lines 249–252). -/
def create_chat_completion_stream (reg : Finset String) (rid : Option String)
    (outcome : StreamCallOutcome) : List String × Finset String :=
  let reg := match rid with
    | some i => insert i reg
    | none => reg
  let yields : List String :=
    match outcome with
    | StreamCallOutcome.creationFailed => ["data: {connection_error}"]
    | StreamCallOutcome.normalEnd n =>
        (List.replicate n "data: {chunk}") ++ ["data: [DONE]"]
    | StreamCallOutcome.cancelledMidStream n =>
        (List.replicate n "data: {chunk}") ++ ["data: {client_error}"]
    | StreamCallOutcome.timeout n =>
        (List.replicate n "data: {chunk}") ++ ["data: {timeout_error}"]
    | StreamCallOutcome.apiFailure => ["data: {api_error}"]
    | StreamCallOutcome.unexpectedFailure => ["data: {internal_error}"]
  let reg := match rid with
    | some i => reg.erase i
    | none => reg
  (yields, reg)

/-- Concatenation of a fragment list. -/
def joinAll : List String → String
  | [] => ""
  | s :: rest => s ++ joinAll rest

/-- The iterated application of `handleArguments` to the successive
argument fragments one tool call receives after its block has started —
exactly what the streaming loop does to one accumulator across chunks. -/
def feedArgs (jv : String → Bool) (tc : ToolCallState) :
    List String → ToolCallState × List Event
  | [] => (tc, [])
  | s :: rest =>
    let p := handleArguments jv tc s
    let q := feedArgs jv p.1 rest
    (q.1, p.2 ++ q.2)

/-- Event matcher: is this an `input_json_delta` content-block delta? -/
def isInputJsonEv : Event → Bool
  | Event.inputJsonDelta _ _ => true
  | _ => false

/-- Event matcher: is this an `error` event? -/
def isErrorEv : Event → Bool
  | Event.errorEvent _ _ => true
  | _ => false

/-- The claim's formula for `estimate_text_tokens`, written over exact
rationals: classify by the CJK-character fraction against 0.7 and 0.1,
divide the character count by 1.2, 4.0 or 2.5, floor, and take at least
one token; 0 for empty input. -/
def estimateTextClaimFormula (s : String) : Nat :=
  if s.length = 0 then 0
  else
    let total := s.length
    let chinese := (s.data.filter isCJKChar).length
    let d : ℚ :=
      if (chinese : ℚ) / (total : ℚ) > 7 / 10 then 6 / 5
      else if (chinese : ℚ) / (total : ℚ) < 1 / 10 then 4 else 5 / 2
    max 1 (Nat.floor ((total : ℚ) / d))

/-- The content-block index opened by an event, if any. -/
def startIdxOf : Event → Option Nat
  | Event.contentBlockStartText i => some i
  | Event.contentBlockStartTool i _ _ => some i
  | _ => none

/-- The content-block index closed by an event, if any. -/
def stopIdxOf : Event → Option Nat
  | Event.contentBlockStop i => some i
  | _ => none

/-- The event shapes the chunk-processing loop can emit outside its error
paths: tool-block starts, argument deltas and text deltas. -/
def loopEv : Event → Bool
  | Event.contentBlockStartTool _ _ _ => true
  | Event.inputJsonDelta _ _ => true
  | Event.textDelta _ _ => true
  | _ => false

/-- The closing-loop contribution of one accumulator: its output index
when its block has started (and an index was assigned). -/
def soloContrib (tc : ToolCallState) : Option Nat :=
  if tc.started then tc.claudeIndex else none

/-- The keys of the tool-call map are distinct (a Python dict cannot hold
a key twice). -/
def KeysNodup (tcs : List (Nat × ToolCallState)) : Prop :=
  (tcs.map Prod.fst).Nodup

/-- The loop-state invariant: distinct keys, and the started blocks'
output indices are exactly 1, …, `toolBlockCounter` (in some order). -/
def StreamInv (st : StreamState) : Prop :=
  KeysNodup st.toolCalls ∧
  (startedIdxs st.toolCalls).Perm (List.range' 1 st.toolBlockCounter)

/-- The start/stop discipline a translated event sequence can satisfy:
the multiset of opened block indices equals the multiset of closed block
indices, no block is opened twice, and every start event precedes every
stop event. -/
def StartStopMatched (evs : List Event) : Prop :=
  (evs.filterMap startIdxOf).Perm (evs.filterMap stopIdxOf) ∧
  (evs.filterMap startIdxOf).Nodup ∧
  ∀ p q : Fin evs.length, (startIdxOf (evs.get p)).isSome →
    (stopIdxOf (evs.get q)).isSome → p.val < q.val

/-! ## Concrete fixtures used by witnesses and counterexamples -/

/-- A minimal original request. -/
def fxReq : ClaudeMessagesRequest := ⟨"claude-3", [], none, 1024⟩

/-- A stream carrying one tool call whose argument string arrives in the
two fragments of the spec's example, then the `[DONE]` sentinel. -/
def fxToolLines : List Line :=
  [Line.chunk ⟨none,
     [⟨⟨none, some [⟨some 0, some "call_1", some "get_w",
         some (some "\x7b\x22a\x22:1")⟩]⟩, none⟩], none⟩,
   Line.chunk ⟨none,
     [⟨⟨none, some [⟨some 0, none, none, some (some "\x7d")⟩]⟩, none⟩], none⟩,
   Line.done]

/-- A stream whose single tool call receives the argument fragment `"7"`
before its id and name are known, and nothing after. -/
def fxPreStartLines : List Line :=
  [Line.chunk ⟨none,
     [⟨⟨none, some [⟨some 0, none, none, some (some "7")⟩]⟩, none⟩], none⟩,
   Line.chunk ⟨none,
     [⟨⟨none, some [⟨some 0, some "call_1", some "get_w", none⟩]⟩, none⟩],
     none⟩,
   Line.done]

/-- The usage-snapshot stream of the spec's example: (5,0), (5,10), (0,0),
each snapshot on a chunk with a (content-free) choice. -/
def fxUsageLines : List Line :=
  [Line.chunk ⟨none, [⟨⟨none, none⟩, none⟩], some ⟨some 5, some 0⟩⟩,
   Line.chunk ⟨none, [⟨⟨none, none⟩, none⟩], some ⟨some 5, some 10⟩⟩,
   Line.chunk ⟨none, [⟨⟨none, none⟩, none⟩], some ⟨some 0, some 0⟩⟩]

/-- A single chunk carrying a positive usage snapshot but an empty
`choices` list — the shape OpenAI's `stream_options.include_usage`
terminal chunk has. -/
def fxUsageNoChoices : List Line :=
  [Line.chunk ⟨none, [], some ⟨some 7, some 9⟩⟩]

/-- A single chunk carrying an inline error payload. -/
def fxErrLines : List Line :=
  [Line.chunk ⟨some ⟨some "api_error", some "boom"⟩, [], none⟩]

/-! ## Claim C8 — the text token estimator -/

/-- C8: for every input text the estimator returns 0 on empty input and
otherwise `max 1 ⌊charCount / divisor⌋` with the divisor selected by the
CJK-character fraction (1.2 above 0.7, 4.0 below 0.1, 2.5 otherwise); in
particular a 400-character pure-ASCII string estimates to 100 tokens and a
120-character pure-CJK string estimates to 100 tokens. -/
theorem C8_estimate_text_tokens :
    (∀ s : String, estimate_text_tokens s = estimateTextClaimFormula s) ∧
    estimate_text_tokens (String.mk (List.replicate 400 'a')) = 100 ∧
    estimate_text_tokens (String.mk (List.replicate 120 '中')) = 100 := by
  refine ⟨?_, by set_option maxRecDepth 8000 in decide, by set_option maxRecDepth 8000 in decide⟩
  intro s
  unfold estimate_text_tokens estimateTextClaimFormula
  by_cases h0 : s.length = 0
  · simp [h0]
  · simp only [h0, if_false]
    have htot : 0 < s.length := Nat.pos_of_ne_zero h0
    have htotQ : (0 : ℚ) < (s.length : ℚ) := by exact_mod_cast htot
    set t := s.length with ht
    set c := (s.data.filter isCJKChar).length with hc
    have hgt : ((c : ℚ) / (t : ℚ) > 7 / 10) ↔ (10 * c > 7 * t) := by
      rw [gt_iff_lt, div_lt_div_iff₀ (by norm_num) htotQ]
      constructor
      · intro h
        have : (7 * t : ℚ) < 10 * c := by linarith
        exact_mod_cast this
      · intro h
        have : (7 * t : ℚ) < 10 * c := by exact_mod_cast h
        linarith
    have hlt : ((c : ℚ) / (t : ℚ) < 1 / 10) ↔ (10 * c < t) := by
      rw [div_lt_div_iff₀ htotQ (by norm_num)]
      constructor
      · intro h
        have : (10 * c : ℚ) < t := by linarith
        exact_mod_cast this
      · intro h
        have : (10 * c : ℚ) < t := by exact_mod_cast h
        linarith
    have hf65 : Nat.floor ((t : ℚ) / (6 / 5)) = 5 * t / 6 := by
      have : (t : ℚ) / (6 / 5) = ((5 * t : ℕ) : ℚ) / ((6 : ℕ) : ℚ) := by
        push_cast; ring
      rw [this, ← Nat.cast_ofNat (n := 6), Nat.floor_div_nat, Nat.floor_natCast]
    have hf4 : Nat.floor ((t : ℚ) / 4) = t / 4 := by
      have : (t : ℚ) / 4 = ((t : ℕ) : ℚ) / ((4 : ℕ) : ℚ) := by push_cast; ring
      rw [this, ← Nat.cast_ofNat (n := 4), Nat.floor_div_nat, Nat.floor_natCast]
    have hf52 : Nat.floor ((t : ℚ) / (5 / 2)) = 2 * t / 5 := by
      have : (t : ℚ) / (5 / 2) = ((2 * t : ℕ) : ℚ) / ((5 : ℕ) : ℚ) := by
        push_cast; ring
      rw [this, ← Nat.cast_ofNat (n := 5), Nat.floor_div_nat, Nat.floor_natCast]
    by_cases hA : 10 * c > 7 * t
    · rw [if_pos hA, if_pos (hgt.mpr hA), hf65]
    · rw [if_neg hA, if_neg (fun h => hA (hgt.mp h))]
      by_cases hB : 10 * c < t
      · rw [if_pos hB, if_pos (hlt.mpr hB), hf4]
      · rw [if_neg hB, if_neg (fun h => hB (hlt.mp h)), hf52]

/-! ## Claim C6 — the finish-reason table -/

/-- C6: the non-streaming translator and the streaming finish handling
use the same fixed table — stop→end_turn, length→max_tokens,
tool_calls|function_call→tool_use, anything else (including absent)
→end_turn — and in particular `"length"` maps to `"max_tokens"` on both
paths. -/
theorem C6_finish_reason_table :
    (∀ fr : Option String,
      mapFinishReasonNonStream fr =
        (applyFinishReason initStreamState fr).1.finalStopReason) ∧
    mapFinishReasonNonStream (some "length") = "max_tokens" ∧
    (applyFinishReason initStreamState (some "length")).1.finalStopReason =
      "max_tokens" := by
  refine ⟨?_, by decide, by decide⟩
  intro fr
  cases fr with
  | none => decide
  | some s =>
    simp only [mapFinishReasonNonStream, applyFinishReason, mapStreamFinish,
      Option.getD_some, initStreamState]
    by_cases h0 : s = ""
    · subst h0; decide
    · rw [if_pos h0]
      by_cases h1 : s = "stop"
      · subst h1; decide
      · by_cases h2 : s = "length"
        · subst h2; decide
        · by_cases h3 : s = "tool_calls"
          · subst h3; decide
          · by_cases h4 : s = "function_call"
            · subst h4; decide
            · simp [h1, h2, h3, h4, STOP_END_TURN]

/-! ## Claim C9 — registry cleanup on every exit path -/

/-- C9: for every starting registry, request id and call outcome — normal
completion, cancellation, each classified failure, timeout (a
`StreamCallOutcome`), or unexpected error — the registry entry created
for the id is gone after the call, in both the non-streaming client call
and the streaming generator. -/
theorem C9_registry_cleanup (reg : Finset String) (i : String)
    (co : CallOutcome) (so : StreamCallOutcome) :
    i ∉ (create_chat_completion reg (some i) co).2 ∧
    i ∉ (create_chat_completion_stream reg (some i) so).2 := by
  constructor
  · show i ∉ ((insert i reg).erase i)
    exact Finset.not_mem_erase i _
  · show i ∉ ((insert i reg).erase i)
    exact Finset.not_mem_erase i _

/-! ## Claim C5 — non-streaming content is never empty -/

/-- C5: for every backend result with at least one choice the translated
content list is non-empty, and when no text block and no tool-use block
was produced it is exactly one empty text block. -/
theorem C5_content_nonempty (jv : String → Bool) (enable : Bool)
    (resp : OpenAIResponse) (req : ClaudeMessagesRequest)
    (choice : RespChoice) (rest : List RespChoice)
    (h : resp.choices = choice :: rest) :
    ∃ r, convert_openai_to_claude_response jv enable resp req = Except.ok r ∧
      r.content ≠ [] ∧
      (buildContentBlocks jv (choice.message.getD ⟨none, []⟩) = [] →
        r.content = [ContentBlock.text ""]) ∧
      (buildContentBlocks jv (choice.message.getD ⟨none, []⟩) ≠ [] →
        r.content = buildContentBlocks jv (choice.message.getD ⟨none, []⟩)) := by
  unfold convert_openai_to_claude_response
  rw [h]
  by_cases hb : buildContentBlocks jv (choice.message.getD ⟨none, []⟩) = []
  · simp only [hb, if_pos rfl]
    by_cases he : enable = true ∧ should_use_estimation resp.usage
    · rw [if_pos he]
      exact ⟨_, rfl, by simp, fun _ => rfl, fun hne => absurd rfl hne⟩
    · rw [if_neg he]
      exact ⟨_, rfl, by simp, fun _ => rfl, fun hne => absurd rfl hne⟩
  · simp only [if_neg hb]
    by_cases he : enable = true ∧ should_use_estimation resp.usage
    · rw [if_pos he]
      exact ⟨_, rfl, hb, fun hE => absurd hE hb, fun _ => rfl⟩
    · rw [if_neg he]
      exact ⟨_, rfl, hb, fun hE => absurd hE hb, fun _ => rfl⟩

/-- Witness for C5 at a concrete input: a response whose single choice has
no message at all yields exactly one empty text block. -/
theorem C5_content_nonempty_witness :
    (⟨[⟨none, none⟩], none⟩ : OpenAIResponse).choices =
        (⟨none, none⟩ : RespChoice) :: [] ∧
    ∃ r, convert_openai_to_claude_response pyJsonValid false
          ⟨[⟨none, none⟩], none⟩ fxReq = Except.ok r ∧
        r.content ≠ [] ∧
        (buildContentBlocks pyJsonValid
            ((⟨none, none⟩ : RespChoice).message.getD ⟨none, []⟩) = [] →
          r.content = [ContentBlock.text ""]) ∧
        (buildContentBlocks pyJsonValid
            ((⟨none, none⟩ : RespChoice).message.getD ⟨none, []⟩) ≠ [] →
          r.content = buildContentBlocks pyJsonValid
            ((⟨none, none⟩ : RespChoice).message.getD ⟨none, []⟩)) :=
  ⟨rfl, C5_content_nonempty pyJsonValid false ⟨[⟨none, none⟩], none⟩ fxReq
    ⟨none, none⟩ [] rfl⟩

/-! ## Claim C2 — first-parse-only argument deltas -/

theorem handleArguments_sent (jv : String → Bool) (tc : ToolCallState)
    (s : String) (h : tc.jsonSent = true) :
    handleArguments jv tc s = ({ tc with argsBuffer := tc.argsBuffer ++ s }, []) := by
  simp [handleArguments, h]

theorem handleArguments_unsent (jv : String → Bool) (tc : ToolCallState)
    (s : String) (h : tc.jsonSent = false) :
    handleArguments jv tc s =
      if jv (tc.argsBuffer ++ s) then
        ({ tc with argsBuffer := tc.argsBuffer ++ s, jsonSent := true },
         [Event.inputJsonDelta (tc.claudeIndex.getD 0) (tc.argsBuffer ++ s)])
      else ({ tc with argsBuffer := tc.argsBuffer ++ s }, []) := by
  simp [handleArguments, h]

theorem feedArgs_sent (jv : String → Bool) :
    ∀ (l : List String) (tc : ToolCallState), tc.jsonSent = true →
    feedArgs jv tc l = ({ tc with argsBuffer := tc.argsBuffer ++ joinAll l }, []) := by
  intro l
  induction l with
  | nil =>
    intro tc h
    show (tc, []) = _
    rw [joinAll, String.append_empty]
  | cons s rest ih =>
    intro tc h
    simp only [feedArgs, handleArguments_sent jv tc s h]
    rw [ih _ (show ({ tc with argsBuffer := tc.argsBuffer ++ s } : ToolCallState).jsonSent = true from h)]
    simp only [joinAll, ← String.append_assoc, List.nil_append]

theorem feedArgs_spec (jv : String → Bool) :
    ∀ (l : List String) (tc : ToolCallState), tc.jsonSent = false →
      ((feedArgs jv tc l).1.argsBuffer = tc.argsBuffer ++ joinAll l) ∧
      ((∀ k, 1 ≤ k → k ≤ l.length →
          jv (tc.argsBuffer ++ joinAll (l.take k)) = false) →
        (feedArgs jv tc l).2 = [] ∧ (feedArgs jv tc l).1.jsonSent = false) ∧
      (∀ k0, 1 ≤ k0 → k0 ≤ l.length →
        jv (tc.argsBuffer ++ joinAll (l.take k0)) = true →
        (∀ j, 1 ≤ j → j < k0 →
          jv (tc.argsBuffer ++ joinAll (l.take j)) = false) →
        (feedArgs jv tc l).2 =
          [Event.inputJsonDelta (tc.claudeIndex.getD 0)
            (tc.argsBuffer ++ joinAll (l.take k0))]) := by
  intro l
  induction l with
  | nil =>
    intro tc h
    refine ⟨by rw [joinAll, String.append_empty]; rfl, fun _ => ⟨rfl, h⟩, ?_⟩
    intro k0 h1 h2
    simp at h2
    omega
  | cons s rest ih =>
    intro tc h
    have htake1 : List.take 1 (s :: rest) = [s] := rfl
    by_cases hv : jv (tc.argsBuffer ++ s) = true
    · have hfeed : feedArgs jv tc (s :: rest) =
          (({ tc with
              argsBuffer := (tc.argsBuffer ++ s) ++ joinAll rest,
              jsonSent := true } : ToolCallState),
           [Event.inputJsonDelta (tc.claudeIndex.getD 0) (tc.argsBuffer ++ s)]) := by
        simp only [feedArgs, handleArguments_unsent jv tc s h, if_pos hv]
        rw [feedArgs_sent jv rest _ rfl]
        simp
      refine ⟨?_, ?_, ?_⟩
      · rw [hfeed, joinAll, ← String.append_assoc]
      · intro hall
        exfalso
        have h1 := hall 1 le_rfl (by simp only [List.length_cons]; omega)
        rw [htake1, joinAll, joinAll, String.append_empty, hv] at h1
        simp at h1
      · intro k0 hk1 hk2 hkv hmin
        have hk0 : k0 = 1 := by
          by_contra hne
          have h1 := hmin 1 le_rfl (by omega)
          rw [htake1, joinAll, joinAll, String.append_empty, hv] at h1
          simp at h1
        subst hk0
        rw [hfeed, htake1, joinAll, joinAll, String.append_empty]
    · have hvf : jv (tc.argsBuffer ++ s) = false := by
        cases hjv : jv (tc.argsBuffer ++ s)
        · rfl
        · exact absurd hjv hv
      have hfeed : feedArgs jv tc (s :: rest) =
          feedArgs jv ({ tc with argsBuffer := tc.argsBuffer ++ s }) rest := by
        simp only [feedArgs, handleArguments_unsent jv tc s h, if_neg hv]
        simp [hvf]
      have ihh := ih ({ tc with argsBuffer := tc.argsBuffer ++ s }) h
      refine ⟨?_, ?_, ?_⟩
      · rw [hfeed, ihh.1]
        show (tc.argsBuffer ++ s) ++ joinAll rest = _
        rw [joinAll, ← String.append_assoc]
      · intro hall
        rw [hfeed]
        refine ihh.2.1 ?_
        intro k hk1 hk2
        have hh := hall (k + 1) (by omega) (by simp only [List.length_cons]; omega)
        rw [List.take_succ_cons, joinAll, ← String.append_assoc] at hh
        exact hh
      · intro k0 hk1 hk2 hkv hmin
        have hk0ne1 : k0 ≠ 1 := by
          intro h1
          subst h1
          rw [htake1, joinAll, joinAll, String.append_empty, hvf] at hkv
          simp at hkv
        obtain ⟨k0', rfl⟩ : ∃ k0', k0 = k0' + 1 := ⟨k0 - 1, by omega⟩
        rw [hfeed]
        have hlen : k0' ≤ rest.length := by simp only [List.length_cons] at hk2; omega
        have hres := ihh.2.2 k0' (by omega) hlen ?hv2 ?hmin2
        case hv2 =>
          rw [List.take_succ_cons, joinAll, ← String.append_assoc] at hkv
          exact hkv
        case hmin2 =>
          intro j hj1 hj2
          have hh := hmin (j + 1) (by omega) (by omega)
          rw [List.take_succ_cons, joinAll, ← String.append_assoc] at hh
          exact hh
        rw [hres]
        show _ = [Event.inputJsonDelta (tc.claudeIndex.getD 0) _]
        rw [List.take_succ_cons, joinAll, ← String.append_assoc]

/-- C2 (amended): for a tool call whose block has started, every incoming
argument fragment is appended to its buffer; if no fragment prefix parses
as valid JSON no delta is emitted, and at the first prefix that parses
exactly one `content_block_delta` carrying the entire buffered string is
emitted — never more, even if later extensions parse validly again.  In
particular the fragment sequence of the spec's example produces exactly
one delta, carrying `{"a":1}`, through the full streaming translator. -/
theorem C2_first_parse_only :
    (∀ (jv : String → Bool) (ci : Nat) (frags : List String),
      ((feedArgs jv ⟨none, none, "", false, some ci, true⟩ frags).1.argsBuffer =
        joinAll frags) ∧
      ((∀ k, 1 ≤ k → k ≤ frags.length → jv (joinAll (frags.take k)) = false) →
        (feedArgs jv ⟨none, none, "", false, some ci, true⟩ frags).2 = []) ∧
      (∀ k0, 1 ≤ k0 → k0 ≤ frags.length → jv (joinAll (frags.take k0)) = true →
        (∀ j, 1 ≤ j → j < k0 → jv (joinAll (frags.take j)) = false) →
        (feedArgs jv ⟨none, none, "", false, some ci, true⟩ frags).2 =
          [Event.inputJsonDelta ci (joinAll (frags.take k0))])) ∧
    ((convert_openai_streaming_to_claude pyJsonValid false fxReq
        fxToolLines).countP isInputJsonEv = 1 ∧
      Event.inputJsonDelta 1 "\x7b\x22a\x22:1\x7d" ∈
        convert_openai_streaming_to_claude pyJsonValid false fxReq fxToolLines) := by
  refine ⟨?_, by decide, by decide⟩
  intro jv ci frags
  have h := feedArgs_spec jv frags ⟨none, none, "", false, some ci, true⟩ rfl
  refine ⟨?_, ?_, ?_⟩
  · simpa using h.1
  · intro hall
    exact (h.2.1 (by simpa using hall)).1
  · intro k0 h1 h2 h3 h4
    simpa using h.2.2 k0 h1 h2 (by simpa using h3) (by simpa using h4)

/-- Witness for C2 at the spec's concrete fragments: the accumulator fed
the two fragments emits exactly the one delta carrying the whole
buffer. -/
theorem C2_first_parse_only_witness :
    (feedArgs pyJsonValid ⟨none, none, "", false, some 1, true⟩
        ["\x7b\x22a\x22:1", "\x7d"]).2 =
      [Event.inputJsonDelta 1 "\x7b\x22a\x22:1\x7d"] := by
  have h := (C2_first_parse_only.1 pyJsonValid 1 ["\x7b\x22a\x22:1", "\x7d"]).2.2 2
    (by omega) (by decide) (by decide) ?_
  · rw [h]; decide
  · intro j hj1 hj2
    have hj : j = 1 := by omega
    subst hj
    decide

/-- Counterexample to C2 as stated: an argument fragment arriving before
the tool call's id and name are known is discarded, not appended.  Here
tool call 0 receives the fragment `"7"` (valid JSON on its own) before its
id/name chunk; the claim then demands a delta carrying `"7"`, but the
translator emits no `input_json_delta` at all and the final buffer is
empty. -/
theorem C2_first_parse_only_counterexample :
    (convert_openai_streaming_to_claude_with_cancellation pyJsonValid false
        fxReq fxPreStartLines (fun _ => false)).events.countP isInputJsonEv = 0 ∧
    pyJsonValid "7" = true ∧
    ((lookupAssoc (convert_openai_streaming_to_claude_with_cancellation
        pyJsonValid false fxReq fxPreStartLines (fun _ => false)).state.toolCalls
        0).getD freshToolCall).argsBuffer = "" := by
  refine ⟨by decide, by decide, by decide⟩

/-! ## Claim C3 — last-positive-wins usage extraction -/

/-- C3 (amended): for every chunk that passes the non-empty-`choices`
guard, a positive `prompt_tokens` / `completion_tokens` in its usage
object overwrites the corresponding running total — last positive value
wins, never summed — while zero or absent values leave the totals
unchanged; and the snapshot stream (5,0), (5,10), (0,0) ends with final
totals (5,10).  (Chunks with an empty `choices` list are skipped before
the usage object is read.) -/
theorem C3_last_positive_wins :
    (∀ (v : Variant) (jv : String → Bool) (st : StreamState) (c : Chunk),
      c.error = none → c.choices ≠ [] →
      (processChunk v jv st c).2.1.totalInputTokens =
        (if 0 < (c.usage.bind (·.promptTokens)).getD 0 then
          (c.usage.bind (·.promptTokens)).getD 0 else st.totalInputTokens) ∧
      (processChunk v jv st c).2.1.totalOutputTokens =
        (if 0 < (c.usage.bind (·.completionTokens)).getD 0 then
          (c.usage.bind (·.completionTokens)).getD 0 else st.totalOutputTokens)) ∧
    convert_openai_streaming_to_claude pyJsonValid false fxReq fxUsageLines =
      [Event.messageStart, Event.contentBlockStartText 0, Event.ping,
       Event.contentBlockStop 0, Event.messageDelta STOP_END_TURN 5 10,
       Event.messageStop] := by
  constructor
  · intro v jv st c herr hch
    have husage : ∀ st' : StreamState,
        (updateUsage st' c.usage).totalInputTokens =
          (if 0 < (c.usage.bind (·.promptTokens)).getD 0 then
            (c.usage.bind (·.promptTokens)).getD 0 else st'.totalInputTokens) ∧
        (updateUsage st' c.usage).totalOutputTokens =
          (if 0 < (c.usage.bind (·.completionTokens)).getD 0 then
            (c.usage.bind (·.completionTokens)).getD 0
           else st'.totalOutputTokens) := by
      intro st'
      cases hu : c.usage with
      | none => simp [updateUsage, hu]
      | some u =>
        by_cases hp : 0 < u.promptTokens.getD 0 <;>
          by_cases hc : 0 < u.completionTokens.getD 0 <;>
          simp [updateUsage, hu, hp, hc]
    -- the remaining chunk handling only touches the tool-call map, the
    -- block counter and the stop reason, never the totals
    have hap : ∀ (x : StreamState) (fr : Option String),
        (applyFinishReason x fr).1.totalInputTokens = x.totalInputTokens ∧
        (applyFinishReason x fr).1.totalOutputTokens = x.totalOutputTokens := by
      intro x fr
      unfold applyFinishReason
      split <;> exact ⟨rfl, rfl⟩
    have hverr : ¬(v = true ∧ c.error.isSome) := by
      intro hcon
      rw [herr] at hcon
      simp at hcon
    have hA := (husage st).1
    have hB := (husage st).2
    unfold processChunk
    rw [if_neg hverr]
    cases hcs : c.choices with
    | nil => exact absurd hcs hch
    | cons choice rest =>
      simp only
      split
      · exact ⟨hA, hB⟩
      · exact ⟨((hap _ _).1).trans hA, ((hap _ _).2).trans hB⟩
  · decide

/-- Witness for C3 at a concrete chunk: a usage snapshot (5, 0) on a chunk
with one (content-free) choice overwrites the input total and leaves the
output total alone. -/
theorem C3_last_positive_wins_witness :
    (processChunk false pyJsonValid initStreamState
        ⟨none, [⟨⟨none, none⟩, none⟩], some ⟨some 5, some 0⟩⟩).2.1.totalInputTokens
      = 5 ∧
    (processChunk false pyJsonValid initStreamState
        ⟨none, [⟨⟨none, none⟩, none⟩], some ⟨some 5, some 0⟩⟩).2.1.totalOutputTokens
      = 0 := by
  have h := (C3_last_positive_wins.1 false pyJsonValid initStreamState
    ⟨none, [⟨⟨none, none⟩, none⟩], some ⟨some 5, some 0⟩⟩) rfl (by decide)
  exact ⟨by rw [h.1]; decide, by rw [h.2]; decide⟩

/-- Counterexample to C3 as stated: a chunk carrying the positive usage
snapshot (7, 9) but an empty `choices` list is skipped before its usage is
read, so the stream ends with totals (0, 0), not (7, 9). -/
theorem C3_last_positive_wins_counterexample :
    convert_openai_streaming_to_claude pyJsonValid false fxReq
        fxUsageNoChoices =
      [Event.messageStart, Event.contentBlockStartText 0, Event.ping,
       Event.contentBlockStop 0, Event.messageDelta STOP_END_TURN 0 0,
       Event.messageStop] ∧
    (convert_openai_streaming_to_claude pyJsonValid false fxReq
        fxUsageNoChoices).countP
      (fun e => match e with
        | Event.messageDelta _ 7 9 => true
        | _ => false) = 0 := by
  exact ⟨by decide, by decide⟩

/-! ## Loop invariants of the streaming translators -/

theorem lookupAssoc_none_not_mem (tcs : List (Nat × ToolCallState)) (k : Nat)
    (h : lookupAssoc tcs k = none) : k ∉ tcs.map Prod.fst := by
  induction tcs with
  | nil => simp
  | cons p rest ih =>
    rw [lookupAssoc] at h
    by_cases hk : p.1 = k
    · rw [if_pos hk] at h
      exact absurd h (by simp)
    · rw [if_neg hk] at h
      simp only [List.map_cons, List.mem_cons]
      rintro (hx | hx)
      · exact hk hx.symm
      · exact ih h hx

theorem lookupAssoc_none_append (tcs : List (Nat × ToolCallState)) (k : Nat)
    (x : ToolCallState) (h : lookupAssoc tcs k = none) :
    lookupAssoc (tcs ++ [(k, x)]) k = some x := by
  induction tcs with
  | nil => simp [lookupAssoc]
  | cons p rest ih =>
    rw [lookupAssoc] at h
    by_cases hk : p.1 = k
    · rw [if_pos hk] at h
      exact absurd h (by simp)
    · rw [if_neg hk] at h
      show lookupAssoc ((p.1, p.2) :: (rest ++ [(k, x)])) k = some x
      rw [lookupAssoc, if_neg hk]
      exact ih h

theorem lookup_some_decomp (tcs : List (Nat × ToolCallState)) (k : Nat)
    (tc : ToolCallState) (h : lookupAssoc tcs k = some tc) :
    ∃ pre post, tcs = pre ++ (k, tc) :: post ∧
      (∀ tc', updateAssoc tcs k tc' = pre ++ (k, tc') :: post) := by
  induction tcs with
  | nil => exact absurd h (by simp [lookupAssoc])
  | cons p rest ih =>
    rw [lookupAssoc] at h
    by_cases hk : p.1 = k
    · rw [if_pos hk] at h
      refine ⟨[], rest, ?_, ?_⟩
      · obtain ⟨p1, p2⟩ := p
        cases hk
        cases h
        rfl
      · intro tc'
        obtain ⟨p1, p2⟩ := p
        cases hk
        simp [updateAssoc]
    · rw [if_neg hk] at h
      obtain ⟨pre, post, hsplit, hupd⟩ := ih h
      refine ⟨p :: pre, post, by rw [hsplit]; rfl, ?_⟩
      intro tc'
      show updateAssoc (p :: rest) k tc' = _
      obtain ⟨p1, p2⟩ := p
      rw [updateAssoc, if_neg hk, hupd tc']
      rfl

theorem startedIdxs_split (pre post : List (Nat × ToolCallState)) (k : Nat)
    (x : ToolCallState) :
    startedIdxs (pre ++ (k, x) :: post) =
      startedIdxs pre ++ (soloContrib x).toList ++ startedIdxs post := by
  simp only [startedIdxs, soloContrib, List.filterMap_append, List.filterMap_cons]
  cases hx : (if x.started = true then x.claudeIndex else none) <;> simp

theorem ensureEntry_keys (tcs : List (Nat × ToolCallState)) (k : Nat)
    (h : KeysNodup tcs) : KeysNodup (ensureEntry tcs k) := by
  unfold ensureEntry
  cases hl : lookupAssoc tcs k with
  | some tc => exact h
  | none =>
    unfold KeysNodup
    rw [List.map_append]
    rw [List.nodup_append]
    exact ⟨h, by simp, by
      intro a ha hb
      simp at hb
      rw [hb] at ha
      exact lookupAssoc_none_not_mem tcs k hl ha⟩

theorem ensureEntry_startedIdxs (tcs : List (Nat × ToolCallState)) (k : Nat) :
    startedIdxs (ensureEntry tcs k) = startedIdxs tcs := by
  unfold ensureEntry
  cases lookupAssoc tcs k with
  | some tc => rfl
  | none =>
    simp [startedIdxs, List.filterMap_append, freshToolCall]

theorem ensureEntry_lookup (tcs : List (Nat × ToolCallState)) (k : Nat) :
    ∃ tc, lookupAssoc (ensureEntry tcs k) k = some tc := by
  unfold ensureEntry
  cases hl : lookupAssoc tcs k with
  | some tc => exact ⟨tc, hl⟩
  | none => exact ⟨freshToolCall, lookupAssoc_none_append tcs k _ hl⟩

theorem updateAssoc_keys (tcs : List (Nat × ToolCallState)) (k : Nat)
    (tc' : ToolCallState) :
    (updateAssoc tcs k tc').map Prod.fst = tcs.map Prod.fst := by
  induction tcs with
  | nil => rfl
  | cons p rest ih =>
    obtain ⟨p1, p2⟩ := p
    rw [updateAssoc]
    by_cases hk : p1 = k
    · rw [if_pos hk]
      simp [hk]
    · rw [if_neg hk]
      simp [ih]

theorem mergeIdName_fields (tc : ToolCallState) (d : ToolCallDelta) :
    (mergeIdName tc d).started = tc.started ∧
    (mergeIdName tc d).claudeIndex = tc.claudeIndex := by
  unfold mergeIdName
  split_ifs <;> exact ⟨rfl, rfl⟩

theorem handleArguments_fields (jv : String → Bool) (tc : ToolCallState)
    (s : String) :
    (handleArguments jv tc s).1.started = tc.started ∧
    (handleArguments jv tc s).1.claudeIndex = tc.claudeIndex ∧
    ((handleArguments jv tc s).2 = [] ∨
      ∃ i b, (handleArguments jv tc s).2 = [Event.inputJsonDelta i b]) := by
  unfold handleArguments
  dsimp only
  split_ifs <;> exact ⟨rfl, rfl, by simp⟩

theorem maybeStart_spec (counter : Nat) (tc : ToolCallState) :
    ((maybeStart counter tc).2.1 = counter ∧ (maybeStart counter tc).1 = [] ∧
     (maybeStart counter tc).2.2 = tc) ∨
    (tc.started = false ∧ (maybeStart counter tc).2.1 = counter + 1 ∧
     (maybeStart counter tc).1 =
       [Event.contentBlockStartTool (counter + 1) (tc.tcId.getD "")
         (tc.name.getD "")] ∧
     (maybeStart counter tc).2.2 =
       { tc with claudeIndex := some (counter + 1), started := true }) := by
  unfold maybeStart
  split_ifs with h
  · right
    refine ⟨h.2.2, rfl, ?_, ?_⟩ <;>
      simp [textBlockIndex]
  · left
    exact ⟨rfl, rfl, rfl⟩

theorem processOneToolDelta_core (v : Variant) (jv : String → Bool)
    (c : Nat) (tcs : List (Nat × ToolCallState)) (d : ToolCallDelta) :
    ∃ (A : List Event) (X : ToolCallState) (b : Bool),
      processOneToolDelta v jv c tcs d =
        ((maybeStart c (mergeIdName ((lookupAssoc
            (ensureEntry tcs (d.index.getD 0)) (d.index.getD 0)).getD
            freshToolCall) d)).1 ++ A,
         (maybeStart c (mergeIdName ((lookupAssoc
            (ensureEntry tcs (d.index.getD 0)) (d.index.getD 0)).getD
            freshToolCall) d)).2.1,
         updateAssoc (ensureEntry tcs (d.index.getD 0)) (d.index.getD 0) X,
         b) ∧
      soloContrib X = soloContrib (maybeStart c (mergeIdName ((lookupAssoc
            (ensureEntry tcs (d.index.getD 0)) (d.index.getD 0)).getD
            freshToolCall) d)).2.2 ∧
      (∀ e ∈ A, ∃ i s, e = Event.inputJsonDelta i s) := by
  unfold processOneToolDelta
  dsimp only
  cases hd : d.arguments with
  | none => exact ⟨[], _, false, by simp, rfl, by simp⟩
  | some arg =>
    cases arg with
    | none =>
      dsimp only
      split_ifs with h
      · exact ⟨[], _, true, by simp, rfl, by simp⟩
      · exact ⟨[], _, false, by simp, rfl, by simp⟩
    | some s =>
      dsimp only
      set ms := maybeStart c (mergeIdName ((lookupAssoc
        (ensureEntry tcs (d.index.getD 0)) (d.index.getD 0)).getD
        freshToolCall) d) with hms
      split_ifs with h
      · refine ⟨(handleArguments jv ms.2.2 s).2, (handleArguments jv ms.2.2 s).1,
          false, rfl, ?_, ?_⟩
        · have hf := handleArguments_fields jv ms.2.2 s
          unfold soloContrib
          rw [hf.1, hf.2.1]
        · intro e he
          have hf := (handleArguments_fields jv ms.2.2 s).2.2
          cases hf with
          | inl hnil => rw [hnil] at he; exact absurd he (by simp)
          | inr hone =>
            obtain ⟨i, b, hb⟩ := hone
            rw [hb] at he
            simp at he
            exact ⟨i, b, he⟩
      · exact ⟨[], _, false, by simp, rfl, by simp⟩

theorem processOneToolDelta_spec (v : Variant) (jv : String → Bool)
    (c : Nat) (tcs : List (Nat × ToolCallState)) (d : ToolCallDelta)
    (h1 : KeysNodup tcs) (h2 : (startedIdxs tcs).Perm (List.range' 1 c)) :
    KeysNodup (processOneToolDelta v jv c tcs d).2.2.1 ∧
    (startedIdxs (processOneToolDelta v jv c tcs d).2.2.1).Perm
      (List.range' 1 (processOneToolDelta v jv c tcs d).2.1) ∧
    c ≤ (processOneToolDelta v jv c tcs d).2.1 ∧
    (processOneToolDelta v jv c tcs d).1.filterMap startIdxOf =
      List.range' (c + 1) ((processOneToolDelta v jv c tcs d).2.1 - c) ∧
    (∀ e ∈ (processOneToolDelta v jv c tcs d).1, loopEv e = true) := by
  obtain ⟨A, X, b, heq, hXc, hAc⟩ := processOneToolDelta_core v jv c tcs d
  have hAstart : A.filterMap startIdxOf = [] := by
    rw [List.filterMap_eq_nil_iff]
    intro e he
    obtain ⟨i, s, rfl⟩ := hAc e he
    rfl
  have hAloop : ∀ e ∈ A, loopEv e = true := by
    intro e he
    obtain ⟨i, s, rfl⟩ := hAc e he
    rfl
  obtain ⟨tc0, hlk⟩ := ensureEntry_lookup tcs (d.index.getD 0)
  obtain ⟨pre, post, hsplit, hupd⟩ :=
    lookup_some_decomp (ensureEntry tcs (d.index.getD 0)) (d.index.getD 0) tc0 hlk
  have hkeys1 : KeysNodup (ensureEntry tcs (d.index.getD 0)) :=
    ensureEntry_keys tcs (d.index.getD 0) h1
  have hsi1 : startedIdxs (ensureEntry tcs (d.index.getD 0)) = startedIdxs tcs :=
    ensureEntry_startedIdxs tcs (d.index.getD 0)
  have htc0 : (lookupAssoc (ensureEntry tcs (d.index.getD 0))
      (d.index.getD 0)).getD freshToolCall = tc0 := by rw [hlk]; rfl
  have hkeysX : KeysNodup (updateAssoc (ensureEntry tcs (d.index.getD 0))
      (d.index.getD 0) X) := by
    unfold KeysNodup
    rw [updateAssoc_keys]
    exact hkeys1
  have hsiX : startedIdxs (updateAssoc (ensureEntry tcs (d.index.getD 0))
      (d.index.getD 0) X) =
      startedIdxs pre ++ (soloContrib X).toList ++ startedIdxs post := by
    rw [hupd X, startedIdxs_split]
  have hsi1' : startedIdxs tcs =
      startedIdxs pre ++ (soloContrib tc0).toList ++ startedIdxs post := by
    rw [← hsi1, hsplit, startedIdxs_split]
  have hmerge := mergeIdName_fields ((lookupAssoc (ensureEntry tcs
      (d.index.getD 0)) (d.index.getD 0)).getD freshToolCall) d
  rcases maybeStart_spec c (mergeIdName ((lookupAssoc (ensureEntry tcs
      (d.index.getD 0)) (d.index.getD 0)).getD freshToolCall) d) with
    ⟨hcnt, hevs, htc⟩ | ⟨hst, hcnt, hevs, htc⟩
  · -- the block did not start on this delta
    have hcontrib : soloContrib X = soloContrib tc0 := by
      rw [hXc, htc]
      unfold soloContrib
      rw [hmerge.1, hmerge.2, htc0]
    rw [heq]
    refine ⟨hkeysX, ?_, ?_, ?_, ?_⟩
    · show (startedIdxs (updateAssoc _ _ X)).Perm (List.range' 1 _)
      rw [hsiX, hcontrib, ← hsi1', hcnt]
      exact h2
    · rw [hcnt]
    · rw [hcnt, Nat.sub_self, List.range'_zero, List.filterMap_append,
        hevs, hAstart]
      rfl
    · intro e he
      rw [hevs] at he
      exact hAloop e (by simpa using he)
  · -- the block started on this delta: it gains output index c + 1
    have hcontrib0 : soloContrib tc0 = none := by
      unfold soloContrib
      rw [← htc0, ← hmerge.1, hst]
      simp
    have hcontribX : soloContrib X = some (c + 1) := by
      rw [hXc, htc]
      unfold soloContrib
      simp
    rw [heq]
    refine ⟨hkeysX, ?_, ?_, ?_, ?_⟩
    · show (startedIdxs (updateAssoc _ _ X)).Perm (List.range' 1 _)
      rw [hsiX, hcontribX, hcnt]
      have hperm1 : (startedIdxs pre ++ [c + 1] ++ startedIdxs post).Perm
          ((c + 1) :: (startedIdxs pre ++ startedIdxs post)) := by
        rw [List.append_assoc]
        exact List.perm_middle
      have hperm2 : (startedIdxs pre ++ startedIdxs post).Perm
          (List.range' 1 c) := by
        have : startedIdxs tcs = startedIdxs pre ++ startedIdxs post := by
          rw [hsi1', hcontrib0]
          simp
        rw [← this]
        exact h2
      have hperm3 : (List.range' 1 (c + 1)).Perm
          ((c + 1) :: List.range' 1 c) := by
        rw [List.range'_1_concat]
        have : 1 + c = c + 1 := Nat.add_comm 1 c
        rw [this]
        exact List.perm_append_singleton _ _
      exact (hperm1.trans ((hperm2.cons (c + 1)))).trans hperm3.symm
    · rw [hcnt]
      omega
    · rw [hcnt, List.filterMap_append, hevs, hAstart]
      have : c + 1 - c = 1 := by omega
      rw [this, List.range'_one]
      rfl
    · intro e he
      rw [hevs] at he
      simp only [List.mem_append, List.mem_singleton] at he
      rcases he with he | he
      · rw [he]; rfl
      · exact hAloop e he

theorem processToolDeltas_spec (v : Variant) (jv : String → Bool) :
    ∀ (ds : List ToolCallDelta) (c : Nat) (tcs : List (Nat × ToolCallState)),
    KeysNodup tcs → (startedIdxs tcs).Perm (List.range' 1 c) →
    KeysNodup (processToolDeltas v jv c tcs ds).2.2.1 ∧
    (startedIdxs (processToolDeltas v jv c tcs ds).2.2.1).Perm
      (List.range' 1 (processToolDeltas v jv c tcs ds).2.1) ∧
    c ≤ (processToolDeltas v jv c tcs ds).2.1 ∧
    (processToolDeltas v jv c tcs ds).1.filterMap startIdxOf =
      List.range' (c + 1) ((processToolDeltas v jv c tcs ds).2.1 - c) ∧
    (∀ e ∈ (processToolDeltas v jv c tcs ds).1, loopEv e = true) := by
  intro ds
  induction ds with
  | nil =>
    intro c tcs h1 h2
    exact ⟨h1, h2, le_rfl, by simp [processToolDeltas], by simp [processToolDeltas]⟩
  | cons d ds ih =>
    intro c tcs h1 h2
    have hone := processOneToolDelta_spec v jv c tcs d h1 h2
    simp only [processToolDeltas]
    by_cases hab : (processOneToolDelta v jv c tcs d).2.2.2 = true
    · rw [if_pos hab]
      exact hone
    · rw [if_neg hab]
      dsimp only
      have hrec := ih (processOneToolDelta v jv c tcs d).2.1
        (processOneToolDelta v jv c tcs d).2.2.1 hone.1 hone.2.1
      refine ⟨hrec.1, hrec.2.1, le_trans hone.2.2.1 hrec.2.2.1, ?_, ?_⟩
      · show ((processOneToolDelta v jv c tcs d).1 ++
          (processToolDeltas v jv _ _ ds).1).filterMap startIdxOf = _
        rw [List.filterMap_append, hone.2.2.2.1, hrec.2.2.2.1]
        have harith : c + 1 + ((processOneToolDelta v jv c tcs d).2.1 - c) =
            (processOneToolDelta v jv c tcs d).2.1 + 1 := by
          have := hone.2.2.1
          omega
        rw [← harith, List.range'_append_1]
        congr 1
        have hle1 := hone.2.2.1
        have hle2 := hrec.2.2.1
        omega
      · intro e he
        show loopEv e = true
        have hmem : e ∈ (processOneToolDelta v jv c tcs d).1 ++
            (processToolDeltas v jv _ _ ds).1 := he
        rw [List.mem_append] at hmem
        rcases hmem with hm | hm
        · exact hone.2.2.2.2 e hm
        · exact hrec.2.2.2.2 e hm

theorem updateUsage_shape (st : StreamState) (u : Option ChunkUsage) :
    (updateUsage st u).toolCalls = st.toolCalls ∧
    (updateUsage st u).toolBlockCounter = st.toolBlockCounter := by
  cases u with
  | none => exact ⟨rfl, rfl⟩
  | some u =>
    unfold updateUsage
    dsimp only
    split_ifs <;> exact ⟨rfl, rfl⟩

theorem applyFinishReason_shape (x : StreamState) (fr : Option String) :
    (applyFinishReason x fr).1.toolCalls = x.toolCalls ∧
    (applyFinishReason x fr).1.toolBlockCounter = x.toolBlockCounter := by
  unfold applyFinishReason
  split_ifs <;> exact ⟨rfl, rfl⟩

theorem toolPhase_spec (v : Variant) (jv : String → Bool) (st : StreamState)
    (tcd : Option (List ToolCallDelta)) (h1 : KeysNodup st.toolCalls)
    (h2 : (startedIdxs st.toolCalls).Perm
      (List.range' 1 st.toolBlockCounter)) :
    KeysNodup (toolPhase v jv st tcd).2.2.1 ∧
    (startedIdxs (toolPhase v jv st tcd).2.2.1).Perm
      (List.range' 1 (toolPhase v jv st tcd).2.1) ∧
    st.toolBlockCounter ≤ (toolPhase v jv st tcd).2.1 ∧
    (toolPhase v jv st tcd).1.filterMap startIdxOf =
      List.range' (st.toolBlockCounter + 1)
        ((toolPhase v jv st tcd).2.1 - st.toolBlockCounter) ∧
    (∀ e ∈ (toolPhase v jv st tcd).1, loopEv e = true) := by
  unfold toolPhase
  cases tcd with
  | none => exact ⟨h1, h2, le_rfl, by simp, by simp⟩
  | some tds =>
    dsimp only
    split_ifs with hg
    · exact ⟨h1, h2, le_rfl, by simp, by simp⟩
    · exact processToolDeltas_spec v jv tds _ _ h1 h2

theorem processChunk_spec (v : Variant) (jv : String → Bool)
    (st : StreamState) (c : Chunk) (h : StreamInv st) :
    StreamInv (processChunk v jv st c).2.1 ∧
    st.toolBlockCounter ≤ (processChunk v jv st c).2.1.toolBlockCounter ∧
    (processChunk v jv st c).1.filterMap startIdxOf =
      List.range' (st.toolBlockCounter + 1)
        ((processChunk v jv st c).2.1.toolBlockCounter - st.toolBlockCounter) ∧
    ((processChunk v jv st c).2.2 ≠ Signal.fail →
      ∀ e ∈ (processChunk v jv st c).1, loopEv e = true) ∧
    ((processChunk v jv st c).2.2 = Signal.fail →
      ∃ A t m, (processChunk v jv st c).1 = A ++ [Event.errorEvent t m] ∧
        ∀ e ∈ A, loopEv e = true) := by
  unfold processChunk
  by_cases herr : v = true ∧ c.error.isSome
  · rw [if_pos herr]
    dsimp only
    exact ⟨h, le_rfl, by simp [startIdxOf], fun hne => absurd rfl hne,
      fun _ => ⟨[], _, _, rfl, by simp⟩⟩
  · rw [if_neg herr]
    cases hcs : c.choices with
    | nil =>
      exact ⟨h, le_rfl, by simp, fun _ => by simp,
        fun hf => absurd hf (by simp)⟩
    | cons choice rest =>
      dsimp only
      have hu := updateUsage_shape st c.usage
      have hinv1 : KeysNodup (updateUsage st c.usage).toolCalls ∧
          (startedIdxs (updateUsage st c.usage).toolCalls).Perm
            (List.range' 1 (updateUsage st c.usage).toolBlockCounter) := by
        rw [hu.1, hu.2]
        exact h
      have hr := toolPhase_spec v jv (updateUsage st c.usage)
        choice.delta.toolCalls hinv1.1 hinv1.2
      have htextloop : ∀ e ∈ (if (choice.delta.content.getD "") ≠ "" then
          [Event.textDelta textBlockIndex (choice.delta.content.getD "")]
          else ([] : List Event)), loopEv e = true := by
        split_ifs with hct
        · intro e he
          simp only [List.mem_singleton] at he
          rw [he]
          rfl
        · intro e he
          exact absurd he (by simp)
      have htextstart : (if (choice.delta.content.getD "") ≠ "" then
          [Event.textDelta textBlockIndex (choice.delta.content.getD "")]
          else ([] : List Event)).filterMap startIdxOf = [] := by
        split_ifs with hct <;> rfl
      by_cases hab : (toolPhase v jv (updateUsage st c.usage)
          choice.delta.toolCalls).2.2.2 = true
      -- the abort (TypeError) branch of the basic translator
      · rw [if_pos hab]
        refine ⟨⟨hr.1, hr.2.1⟩, ?_, ?_, fun hne => absurd rfl hne, ?_⟩
        · show st.toolBlockCounter ≤ (toolPhase v jv _ _).2.1
          rw [← hu.2]
          exact hr.2.2.1
        · show ((if (choice.delta.content.getD "") ≠ "" then
              [Event.textDelta textBlockIndex (choice.delta.content.getD "")]
              else []) ++ (toolPhase v jv _ _).1 ++
              [Event.errorEvent "api_error" streamTypeErrorMsg]).filterMap
                startIdxOf = _
          rw [List.filterMap_append, List.filterMap_append, htextstart,
            hr.2.2.2.1, hu.2]
          simp [startIdxOf]
        · intro _
          refine ⟨(if (choice.delta.content.getD "") ≠ "" then
              [Event.textDelta textBlockIndex (choice.delta.content.getD "")]
              else []) ++ (toolPhase v jv _ _).1, "api_error",
              streamTypeErrorMsg, by rw [List.append_assoc], ?_⟩
          intro e he
          rw [List.mem_append] at he
          rcases he with he | he
          · exact htextloop e he
          · exact hr.2.2.2.2 e he
    -- the normal branch
      · rw [if_neg hab]
        have hfin := applyFinishReason_shape
          { updateUsage st c.usage with
              toolBlockCounter := (toolPhase v jv (updateUsage st c.usage)
                choice.delta.toolCalls).2.1,
              toolCalls := (toolPhase v jv (updateUsage st c.usage)
                choice.delta.toolCalls).2.2.1 } choice.finishReason
        refine ⟨?_, ?_, ?_, ?_, ?_⟩
        · constructor
          · show KeysNodup (applyFinishReason _ _).1.toolCalls
            rw [hfin.1]
            exact hr.1
          · show (startedIdxs (applyFinishReason _ _).1.toolCalls).Perm
              (List.range' 1 (applyFinishReason _ _).1.toolBlockCounter)
            rw [hfin.1, hfin.2]
            exact hr.2.1
        · show st.toolBlockCounter ≤ (applyFinishReason _ _).1.toolBlockCounter
          rw [hfin.2, ← hu.2]
          exact hr.2.2.1
        · show ((if (choice.delta.content.getD "") ≠ "" then
              [Event.textDelta textBlockIndex (choice.delta.content.getD "")]
              else []) ++ (toolPhase v jv _ _).1).filterMap startIdxOf = _
          rw [List.filterMap_append, htextstart, hr.2.2.2.1, hu.2, hfin.2]
          simp [startIdxOf]
        · intro _ e he
          rw [List.mem_append] at he
          rcases he with he | he
          · exact htextloop e he
          · exact hr.2.2.2.2 e he
        · intro hf
          dsimp only at hf
          split at hf <;> exact absurd hf (by simp)

theorem runLoop_spec (v : Variant) (jv : String → Bool) (d : Nat → Bool) :
    ∀ (lines : List Line) (k : Nat) (st : StreamState), StreamInv st →
    StreamInv (runLoop v jv d k st lines).state ∧
    st.toolBlockCounter ≤ (runLoop v jv d k st lines).state.toolBlockCounter ∧
    ((runLoop v jv d k st lines).exit ≠ ExitKind.failed →
      (runLoop v jv d k st lines).events.filterMap startIdxOf =
        List.range' (st.toolBlockCounter + 1)
          ((runLoop v jv d k st lines).state.toolBlockCounter -
            st.toolBlockCounter) ∧
      ∀ e ∈ (runLoop v jv d k st lines).events, loopEv e = true) ∧
    ((runLoop v jv d k st lines).exit = ExitKind.failed →
      ∃ A t m,
        (runLoop v jv d k st lines).events = A ++ [Event.errorEvent t m] ∧
        (∀ e ∈ A, loopEv e = true) ∧
        (runLoop v jv d k st lines).events.filterMap startIdxOf =
          List.range' (st.toolBlockCounter + 1)
            ((runLoop v jv d k st lines).state.toolBlockCounter -
              st.toolBlockCounter)) := by
  intro lines
  induction lines with
  | nil =>
    intro k st h
    simp only [runLoop]
    exact ⟨h, le_rfl, fun _ => ⟨by simp, by simp⟩,
      fun hf => absurd hf (by simp)⟩
  | cons line rest ih =>
    intro k st h
    simp only [runLoop]
    by_cases hd : v = true ∧ d k = true
    · rw [if_pos hd]
      exact ⟨h, le_rfl, fun _ => ⟨by simp, by simp⟩,
        fun hf => absurd hf (by simp)⟩
    · rw [if_neg hd]
      cases line with
      | skip => exact ih (k + 1) st h
      | done =>
        exact ⟨h, le_rfl, fun _ => ⟨by simp, by simp⟩,
          fun hf => absurd hf (by simp)⟩
      | chunk c =>
        dsimp only
        have hpc := processChunk_spec v jv st c h
        rcases hsig : processChunk v jv st c with ⟨evs, st', sg⟩
        rw [hsig] at hpc
        dsimp only at hpc
        dsimp only
        cases sg with
        | next =>
          rw [if_pos rfl]
          dsimp only
          have hrec := ih (k + 1) st' hpc.1
          refine ⟨hrec.1, le_trans hpc.2.1 hrec.2.1, ?_, ?_⟩
          · intro hne
            have hr3 := hrec.2.2.1 hne
            constructor
            · rw [List.filterMap_append, hpc.2.2.1, hr3.1]
              have harith : st.toolBlockCounter + 1 +
                  (st'.toolBlockCounter - st.toolBlockCounter) =
                  st'.toolBlockCounter + 1 := by
                have := hpc.2.1
                omega
              rw [← harith, List.range'_append_1]
              congr 1
              have := hpc.2.1
              have := hrec.2.1
              omega
            · intro e he
              rw [List.mem_append] at he
              rcases he with he | he
              · exact hpc.2.2.2.1 (by simp) e he
              · exact hr3.2 e he
          · intro hf
            obtain ⟨A, t, m, hAeq, hAloop, hAstart⟩ := hrec.2.2.2 hf
            refine ⟨evs ++ A, t, m, by rw [hAeq, List.append_assoc], ?_, ?_⟩
            · intro e he
              rw [List.mem_append] at he
              rcases he with he | he
              · exact hpc.2.2.2.1 (by simp) e he
              · exact hAloop e he
            · rw [List.filterMap_append, hpc.2.2.1, hAstart]
              have harith : st.toolBlockCounter + 1 +
                  (st'.toolBlockCounter - st.toolBlockCounter) =
                  st'.toolBlockCounter + 1 := by
                have := hpc.2.1
                omega
              rw [← harith, List.range'_append_1]
              congr 1
              have := hpc.2.1
              have := hrec.2.1
              omega
        | stop =>
          rw [if_neg (by simp), if_pos rfl]
          dsimp only
          exact ⟨hpc.1, hpc.2.1,
            fun _ => ⟨hpc.2.2.1, hpc.2.2.2.1 (by simp)⟩,
            fun hf => absurd hf (by simp)⟩
        | fail =>
          rw [if_neg (by simp), if_neg (by simp)]
          dsimp only
          obtain ⟨A, t, m, hAeq, hAloop⟩ := hpc.2.2.2.2 rfl
          exact ⟨hpc.1, hpc.2.1, fun hne => absurd rfl hne,
            fun _ => ⟨A, t, m, hAeq, hAloop, hpc.2.2.1⟩⟩

theorem runLoop_decompose (v : Variant) (jv : String → Bool) (d : Nat → Bool) :
    ∀ (i : Nat) (lines : List Line) (k : Nat) (st : StreamState),
    (runLoop v jv (fun _ => false) k st (lines.take i)).exit =
      ExitKind.exhausted →
    (∀ j, j < i → d (k + j) = false) →
    runLoop v jv d k st lines =
      ⟨(runLoop v jv (fun _ => false) k st (lines.take i)).events ++
        (runLoop v jv d (k + i)
          (runLoop v jv (fun _ => false) k st (lines.take i)).state
          (lines.drop i)).events,
       (runLoop v jv d (k + i)
         (runLoop v jv (fun _ => false) k st (lines.take i)).state
         (lines.drop i)).state,
       (runLoop v jv d (k + i)
         (runLoop v jv (fun _ => false) k st (lines.take i)).state
         (lines.drop i)).exit,
       (runLoop v jv d (k + i)
         (runLoop v jv (fun _ => false) k st (lines.take i)).state
         (lines.drop i)).cancelCalled⟩ := by
  intro i
  induction i with
  | zero =>
    intro lines k st hex hd
    simp only [List.take_zero, List.drop_zero, Nat.add_zero]
    simp only [runLoop, List.nil_append]
  | succ i ihi =>
    intro lines k st hex hd
    cases lines with
    | nil =>
      simp only [List.take_nil, List.drop_nil]
      simp only [runLoop, List.nil_append]
    | cons l rest =>
      rw [List.take_succ_cons] at hex
      simp only [runLoop] at hex
      rw [if_neg (by simp)] at hex
      have hdk : d k = false := by
        have := hd 0 (by omega)
        rwa [Nat.add_zero] at this
      have hdshift : ∀ j, j < i → d (k + 1 + j) = false := by
        intro j hj
        have := hd (j + 1) (by omega)
        rwa [show k + (j + 1) = k + 1 + j by omega] at this
      have hknd : ¬(v = true ∧ d k = true) := by
        rintro ⟨-, hcon⟩
        rw [hdk] at hcon
        exact Bool.false_ne_true hcon
      rw [List.take_succ_cons, List.drop_succ_cons]
      simp only [runLoop]
      rw [if_neg hknd, if_neg (by simp)]
      cases l with
      | skip =>
        have hrec := ihi rest (k + 1) st hex hdshift
        rw [hrec]
        have harith : k + (i + 1) = k + 1 + i := by omega
        rw [harith]
      | done =>
        exact absurd hex (by simp)
      | chunk c =>
        dsimp only
        dsimp only at hex
        rcases hsig : processChunk v jv st c with ⟨evs, st', sg⟩
        rw [hsig] at hex
        dsimp only at hex
        cases sg with
        | next =>
          rw [if_pos rfl] at hex
          rw [if_pos rfl]
          dsimp only at hex
          dsimp only
          have hrec := ihi rest (k + 1) st' hex hdshift
          rw [hrec]
          have harith : k + (i + 1) = k + 1 + i := by omega
          rw [harith]
          simp [List.append_assoc]
        | stop =>
          rw [if_neg (by simp), if_pos rfl] at hex
          exact absurd hex (by simp)
        | fail =>
          rw [if_neg (by simp), if_neg (by simp)] at hex
          exact absurd hex (by simp)

theorem loopEv_not_stop (e : Event) (h : loopEv e = true) :
    stopIdxOf e = none := by
  cases e <;> first | rfl | exact absurd h (by simp [loopEv])

theorem loopEv_not_error (e : Event) (h : loopEv e = true) :
    isErrorEv e = false := by
  cases e <;> first | rfl | exact absurd h (by simp [loopEv])

theorem opening_startIdx : openingEvents.filterMap startIdxOf = [0] := by decide

theorem opening_stopIdx : openingEvents.filterMap stopIdxOf = [] := by decide

theorem opening_noerr : ∀ e ∈ openingEvents, isErrorEv e = false := by decide

theorem closing_cases (enable : Bool) (req : ClaudeMessagesRequest)
    (st : StreamState) :
    ∀ e ∈ closingEvents enable req st,
    (∃ i, e = Event.contentBlockStop i) ∨
    (∃ sr a b, e = Event.messageDelta sr a b) ∨ e = Event.messageStop := by
  intro e he
  unfold closingEvents at he
  simp only [List.mem_append, List.mem_cons, List.mem_map,
    List.not_mem_nil, or_false] at he
  rcases he with (he | ⟨i, _, hie⟩) | he | he
  · exact Or.inl ⟨textBlockIndex, he⟩
  · exact Or.inl ⟨i, hie.symm⟩
  · exact Or.inr (Or.inl ⟨_, _, _, he⟩)
  · exact Or.inr (Or.inr he)

theorem closing_startIdx (enable : Bool) (req : ClaudeMessagesRequest)
    (st : StreamState) :
    (closingEvents enable req st).filterMap startIdxOf = [] := by
  rw [List.filterMap_eq_nil_iff]
  intro e he
  rcases closing_cases enable req st e he with ⟨i, rfl⟩ | ⟨sr, a, b, rfl⟩ | rfl <;>
    rfl

theorem closing_noStart (enable : Bool) (req : ClaudeMessagesRequest)
    (st : StreamState) :
    ∀ e ∈ closingEvents enable req st, startIdxOf e = none := by
  intro e he
  rcases closing_cases enable req st e he with ⟨i, rfl⟩ | ⟨sr, a, b, rfl⟩ | rfl <;>
    rfl

theorem closing_noerr (enable : Bool) (req : ClaudeMessagesRequest)
    (st : StreamState) :
    ∀ e ∈ closingEvents enable req st, isErrorEv e = false := by
  intro e he
  rcases closing_cases enable req st e he with ⟨i, rfl⟩ | ⟨sr, a, b, rfl⟩ | rfl <;>
    rfl

theorem closing_stopIdx (enable : Bool) (req : ClaudeMessagesRequest)
    (st : StreamState) :
    (closingEvents enable req st).filterMap stopIdxOf =
      0 :: startedIdxs st.toolCalls := by
  unfold closingEvents
  rw [List.filterMap_append, List.filterMap_append, List.filterMap_map]
  have h1 : (stopIdxOf ∘ Event.contentBlockStop) = some := by
    funext i
    rfl
  have h2 : List.filterMap stopIdxOf [Event.contentBlockStop textBlockIndex] =
      [textBlockIndex] := rfl
  have h3 : List.filterMap stopIdxOf
      [Event.messageDelta st.finalStopReason (finalUsage enable req st).1
        (finalUsage enable req st).2, Event.messageStop] = [] := rfl
  rw [h1, List.filterMap_some, h2, h3, List.append_nil]
  rfl

theorem startStop_split (A B : List Event)
    (hA : ∀ e ∈ A, stopIdxOf e = none) (hB : ∀ e ∈ B, startIdxOf e = none) :
    ∀ p q : Fin (A ++ B).length, (startIdxOf ((A ++ B).get p)).isSome →
      (stopIdxOf ((A ++ B).get q)).isSome → p.val < q.val := by
  intro p q hp hq
  have hAB : (A ++ B).length = A.length + B.length := List.length_append A B
  have hplen : p.val < A.length := by
    by_contra hge
    push_neg at hge
    have hlt : p.val - A.length < B.length := by
      have := p.isLt
      omega
    have heq : (A ++ B).get p = B.get ⟨p.val - A.length, hlt⟩ := by
      rw [List.get_eq_getElem, List.get_eq_getElem,
        List.getElem_append_right hge]
    rw [heq] at hp
    rw [hB _ (List.get_mem B _ _)] at hp
    exact absurd hp (by simp)
  have hqlen : A.length ≤ q.val := by
    by_contra hlt
    push_neg at hlt
    have heq : (A ++ B).get q = A.get ⟨q.val, hlt⟩ := by
      rw [List.get_eq_getElem, List.get_eq_getElem,
        List.getElem_append_left hlt]
    rw [heq] at hq
    rw [hA _ (List.get_mem A _ _)] at hq
    exact absurd hq (by simp)
  omega

theorem streamInv_init : StreamInv initStreamState := by
  constructor
  · show (([] : List (Nat × ToolCallState)).map Prod.fst).Nodup
    simp
  · show (startedIdxs []).Perm (List.range' 1 0)
    simp [startedIdxs]

/-- The full start/stop discipline of one translated stream that ends on
its normal path: assembled from the loop invariant and the fixed opening
and closing skeleton. -/
theorem startStopMatched_of_run (v : Variant) (jv : String → Bool)
    (d : Nat → Bool) (enable : Bool) (req : ClaudeMessagesRequest)
    (lines : List Line)
    (hex : (runLoop v jv d 0 initStreamState lines).exit ≠ ExitKind.failed) :
    StartStopMatched (openingEvents ++
      (runLoop v jv d 0 initStreamState lines).events ++
      closingEvents enable req (runLoop v jv d 0 initStreamState lines).state) := by
  have hspec := runLoop_spec v jv d lines 0 initStreamState streamInv_init
  obtain ⟨hstarts, hloop⟩ := hspec.2.2.1 hex
  have hc0 : initStreamState.toolBlockCounter = 0 := rfl
  rw [hc0] at hstarts
  have hstart : (openingEvents ++
      (runLoop v jv d 0 initStreamState lines).events ++
      closingEvents enable req (runLoop v jv d 0 initStreamState lines).state).filterMap
        startIdxOf =
      0 :: List.range' 1
        (runLoop v jv d 0 initStreamState lines).state.toolBlockCounter := by
    rw [List.filterMap_append, List.filterMap_append, opening_startIdx,
      closing_startIdx, hstarts, List.append_nil, Nat.sub_zero]
    rfl
  have hstop : (openingEvents ++
      (runLoop v jv d 0 initStreamState lines).events ++
      closingEvents enable req (runLoop v jv d 0 initStreamState lines).state).filterMap
        stopIdxOf =
      0 :: startedIdxs (runLoop v jv d 0 initStreamState lines).state.toolCalls := by
    rw [List.filterMap_append, List.filterMap_append, opening_stopIdx,
      closing_stopIdx]
    rw [List.filterMap_eq_nil_iff.2
      (fun e he => loopEv_not_stop e (hloop e he))]
    rfl
  refine ⟨?_, ?_, ?_⟩
  · rw [hstart, hstop]
    exact (hspec.1.2.symm).cons 0
  · rw [hstart]
    rw [List.nodup_cons]
    constructor
    · intro hmem
      rw [List.mem_range'] at hmem
      obtain ⟨j, _, hj⟩ := hmem
      omega
    · exact List.nodup_range' 1 _
  · apply startStop_split
    · intro e he
      rw [List.mem_append] at he
      rcases he with he | he
      · simp only [openingEvents, List.mem_cons, List.not_mem_nil,
          or_false] at he
        rcases he with rfl | rfl | rfl <;> rfl
      · exact loopEv_not_stop e (hloop e he)
    · exact closing_noStart enable req _

/-- C1 (amended): in every run of either streaming translator that ends
without an error event (normal exhaustion, `[DONE]`, a finish reason, or a
client disconnect), the emitted start and stop events match exactly: the
multiset of opened block indices equals the multiset of closed ones, no
index is opened twice, and every start precedes every stop.  (On the error
paths the translators return right after the error event, leaving opened
blocks unclosed — see the counterexample.) -/
theorem C1_start_stop_matching :
    (∀ (jv : String → Bool) (enable : Bool) (req : ClaudeMessagesRequest)
        (lines : List Line),
      (runLoop false jv (fun _ => false) 0 initStreamState lines).exit ≠
        ExitKind.failed →
      StartStopMatched
        (convert_openai_streaming_to_claude jv enable req lines)) ∧
    (∀ (jv : String → Bool) (enable : Bool) (req : ClaudeMessagesRequest)
        (lines : List Line) (d : Nat → Bool),
      (convert_openai_streaming_to_claude_with_cancellation jv enable req
        lines d).exit ≠ ExitKind.failed →
      StartStopMatched
        (convert_openai_streaming_to_claude_with_cancellation jv enable req
          lines d).events) := by
  constructor
  · intro jv enable req lines hex
    unfold convert_openai_streaming_to_claude
    dsimp only
    rw [if_neg hex]
    exact startStopMatched_of_run false jv (fun _ => false) enable req lines hex
  · intro jv enable req lines d hex
    have hex' : (runLoop true jv d 0 initStreamState lines).exit ≠
        ExitKind.failed := hex
    show StartStopMatched
      (convert_openai_streaming_to_claude_with_cancellation jv enable req
        lines d).events
    unfold convert_openai_streaming_to_claude_with_cancellation
    dsimp only
    rw [if_neg hex']
    exact startStopMatched_of_run true jv d enable req lines hex'

/-- Witness for C1 at the concrete tool-call stream: both translators end
normally and their event sequences satisfy the start/stop discipline. -/
theorem C1_start_stop_matching_witness :
    ((runLoop false pyJsonValid (fun _ => false) 0 initStreamState
        fxToolLines).exit ≠ ExitKind.failed ∧
      StartStopMatched
        (convert_openai_streaming_to_claude pyJsonValid false fxReq
          fxToolLines)) ∧
    ((convert_openai_streaming_to_claude_with_cancellation pyJsonValid false
        fxReq fxToolLines (fun _ => false)).exit ≠ ExitKind.failed ∧
      StartStopMatched
        (convert_openai_streaming_to_claude_with_cancellation pyJsonValid
          false fxReq fxToolLines (fun _ => false)).events) :=
  ⟨⟨by decide, C1_start_stop_matching.1 pyJsonValid false fxReq fxToolLines
      (by decide)⟩,
   ⟨by decide, C1_start_stop_matching.2 pyJsonValid false fxReq fxToolLines
      (fun _ => false) (by decide)⟩⟩

/-- Counterexample to C1 as stated: on a chunk carrying an inline error
payload the cancellation-aware translator emits the error event and
returns, so the unconditionally opened text block 0 gets a
`content_block_start` but no `content_block_stop` before the stream
ends. -/
theorem C1_start_stop_matching_counterexample :
    (convert_openai_streaming_to_claude_with_cancellation pyJsonValid false
        fxReq fxErrLines (fun _ => false)).events =
      [Event.messageStart, Event.contentBlockStartText 0, Event.ping,
       Event.errorEvent "api_error" "boom"] ∧
    (convert_openai_streaming_to_claude_with_cancellation pyJsonValid false
        fxReq fxErrLines (fun _ => false)).events.filterMap startIdxOf =
      [0] ∧
    (convert_openai_streaming_to_claude_with_cancellation pyJsonValid false
        fxReq fxErrLines (fun _ => false)).events.filterMap stopIdxOf =
      [] := by
  exact ⟨by decide, by decide, by decide⟩

/-! ## Claim C7 — fallback token estimation -/

/-- C7: on every stream run that ends on its normal path, both streaming
translators close with the fixed closing skeleton whose `message_delta`
carries `finalUsage`; and `finalUsage` replaces the totals with the
estimator's input estimate and `min (max_tokens / 4) 50` exactly when
estimation is enabled and both running totals are still zero at stream
end, leaving the running totals untouched otherwise. -/
theorem C7_fallback_estimation :
    (∀ (jv : String → Bool) (enable : Bool) (req : ClaudeMessagesRequest)
        (lines : List Line),
      (runLoop false jv (fun _ => false) 0 initStreamState lines).exit ≠
        ExitKind.failed →
      convert_openai_streaming_to_claude jv enable req lines =
        openingEvents ++
          (runLoop false jv (fun _ => false) 0 initStreamState lines).events ++
          closingEvents enable req
            (runLoop false jv (fun _ => false) 0 initStreamState
              lines).state) ∧
    (∀ (jv : String → Bool) (enable : Bool) (req : ClaudeMessagesRequest)
        (lines : List Line) (d : Nat → Bool),
      (convert_openai_streaming_to_claude_with_cancellation jv enable req
        lines d).exit ≠ ExitKind.failed →
      (convert_openai_streaming_to_claude_with_cancellation jv enable req
        lines d).events =
        openingEvents ++
          (runLoop true jv d 0 initStreamState lines).events ++
          closingEvents enable req
            (runLoop true jv d 0 initStreamState lines).state) ∧
    (∀ (enable : Bool) (req : ClaudeMessagesRequest) (st : StreamState),
      enable = true → st.totalInputTokens = 0 → st.totalOutputTokens = 0 →
      finalUsage enable req st =
        ((estimate_input_tokens req : Int),
         ((min (req.max_tokens / 4) 50 : Nat) : Int))) ∧
    (∀ (enable : Bool) (req : ClaudeMessagesRequest) (st : StreamState),
      ¬(enable = true ∧ st.totalInputTokens = 0 ∧ st.totalOutputTokens = 0) →
      finalUsage enable req st =
        (st.totalInputTokens, st.totalOutputTokens)) := by
  refine ⟨?_, ?_, ?_, ?_⟩
  · intro jv enable req lines hex
    unfold convert_openai_streaming_to_claude
    dsimp only
    rw [if_neg hex]
  · intro jv enable req lines d hex
    have hex' : (runLoop true jv d 0 initStreamState lines).exit ≠
        ExitKind.failed := hex
    unfold convert_openai_streaming_to_claude_with_cancellation
    dsimp only
    rw [if_neg hex']
  · intro enable req st he hi ho
    unfold finalUsage
    rw [if_pos ⟨he, hi, ho⟩]
  · intro enable req st hne
    unfold finalUsage
    rw [if_neg hne]

/-- Witness for C7 at concrete inputs: a stream ending at once with
estimation enabled falls back to the estimate (5, 50) for the empty
request, and positive totals (3, 4) survive untouched. -/
theorem C7_fallback_estimation_witness :
    (convert_openai_streaming_to_claude pyJsonValid true fxReq [Line.done] =
      openingEvents ++
        (runLoop false pyJsonValid (fun _ => false) 0 initStreamState
          [Line.done]).events ++
        closingEvents true fxReq
          (runLoop false pyJsonValid (fun _ => false) 0 initStreamState
            [Line.done]).state) ∧
    finalUsage true fxReq initStreamState = ((5 : Int), (50 : Int)) ∧
    finalUsage false fxReq ⟨0, [], STOP_END_TURN, 3, 4⟩ =
      ((3 : Int), (4 : Int)) := by
  refine ⟨C7_fallback_estimation.1 pyJsonValid true fxReq [Line.done]
    (by decide), ?_, ?_⟩
  · have h := C7_fallback_estimation.2.2.1 true fxReq initStreamState rfl
      rfl rfl
    rw [h]
    decide
  · have h := C7_fallback_estimation.2.2.2 false fxReq
      ⟨0, [], STOP_END_TURN, 3, 4⟩ (by simp)
    rw [h]

/-! ## Claim C4 — inline error payloads end the stream -/

/-- C4: when the cancellation-aware translator reaches a chunk whose
payload carries an `error` object, it emits exactly one `error` event,
that event is the last of the sequence (so no `content_block_stop`,
`message_delta` or `message_stop` follows), and the loop ends on its
error exit; no exception escapes, the translator simply ends its event
sequence. -/
theorem C4_inline_error_terminates (jv : String → Bool) (enable : Bool)
    (req : ClaudeMessagesRequest) (lines : List Line) (d : Nat → Bool)
    (i : Nat) (c : Chunk) (e : ChunkError) (rest : List Line)
    (htake : (runLoop true jv (fun _ => false) 0 initStreamState
      (lines.take i)).exit = ExitKind.exhausted)
    (hdrop : lines.drop i = Line.chunk c :: rest)
    (herr : c.error = some e)
    (hd : ∀ j, j ≤ i → d j = false) :
    (convert_openai_streaming_to_claude_with_cancellation jv enable req
      lines d).events =
      openingEvents ++
        (runLoop true jv (fun _ => false) 0 initStreamState
          (lines.take i)).events ++
        [Event.errorEvent (e.etype.getD "unknown_error")
          (e.emsg.getD "Unknown error occurred")] ∧
    (convert_openai_streaming_to_claude_with_cancellation jv enable req
      lines d).events.countP isErrorEv = 1 ∧
    (convert_openai_streaming_to_claude_with_cancellation jv enable req
      lines d).exit = ExitKind.failed := by
  have hdec := runLoop_decompose true jv d i lines 0 initStreamState htake
    (fun j hj => by
      have := hd j (le_of_lt hj)
      rwa [Nat.zero_add])
  have hdi : d (0 + i) = false := by
    rw [Nat.zero_add]
    exact hd i le_rfl
  have hpc : processChunk true jv
      (runLoop true jv (fun _ => false) 0 initStreamState
        (lines.take i)).state c =
      ([Event.errorEvent (e.etype.getD "unknown_error")
          (e.emsg.getD "Unknown error occurred")],
       (runLoop true jv (fun _ => false) 0 initStreamState
         (lines.take i)).state, Signal.fail) := by
    unfold processChunk
    rw [if_pos ⟨rfl, by rw [herr]; rfl⟩]
    dsimp only
    rw [herr]
    rfl
  have hdrop_run : runLoop true jv d (0 + i)
      (runLoop true jv (fun _ => false) 0 initStreamState
        (lines.take i)).state (lines.drop i) =
      ⟨[Event.errorEvent (e.etype.getD "unknown_error")
          (e.emsg.getD "Unknown error occurred")],
       (runLoop true jv (fun _ => false) 0 initStreamState
         (lines.take i)).state, ExitKind.failed, false⟩ := by
    rw [hdrop]
    simp only [runLoop]
    rw [if_neg (by
      rintro ⟨-, hcon⟩
      rw [hdi] at hcon
      exact Bool.false_ne_true hcon)]
    rw [hpc]
    rw [if_neg (by simp), if_neg (by simp)]
  have hrun : runLoop true jv d 0 initStreamState lines =
      ⟨(runLoop true jv (fun _ => false) 0 initStreamState
          (lines.take i)).events ++
        [Event.errorEvent (e.etype.getD "unknown_error")
          (e.emsg.getD "Unknown error occurred")],
       (runLoop true jv (fun _ => false) 0 initStreamState
         (lines.take i)).state, ExitKind.failed, false⟩ := by
    rw [hdec, hdrop_run]
  have hnoerr : ∀ e' ∈ (runLoop true jv (fun _ => false) 0 initStreamState
      (lines.take i)).events, isErrorEv e' = false := by
    intro e' he'
    have hspec := runLoop_spec true jv (fun _ => false) (lines.take i) 0
      initStreamState streamInv_init
    exact loopEv_not_error e'
      ((hspec.2.2.1 (by rw [htake]; simp)).2 e' he')
  refine ⟨?_, ?_, ?_⟩
  · show (convert_openai_streaming_to_claude_with_cancellation jv enable req
      lines d).events = _
    unfold convert_openai_streaming_to_claude_with_cancellation
    dsimp only
    rw [hrun]
    dsimp only
    rw [if_pos rfl, List.append_nil, List.append_assoc]
  · show (convert_openai_streaming_to_claude_with_cancellation jv enable req
      lines d).events.countP isErrorEv = 1
    unfold convert_openai_streaming_to_claude_with_cancellation
    dsimp only
    rw [hrun]
    dsimp only
    rw [if_pos rfl, List.append_nil, List.countP_append, List.countP_append]
    rw [List.countP_eq_zero.2 (by
      intro a ha
      have := opening_noerr a ha
      simp [this])]
    rw [List.countP_eq_zero.2 (by
      intro a ha
      have := hnoerr a ha
      simp [this])]
    rfl
  · show (convert_openai_streaming_to_claude_with_cancellation jv enable req
      lines d).exit = ExitKind.failed
    unfold convert_openai_streaming_to_claude_with_cancellation
    dsimp only
    rw [hrun]

/-- Witness for C4: a stream whose first chunk is an inline error payload
produces the opening events followed by exactly one error event and ends
there. -/
theorem C4_inline_error_terminates_witness :
    (convert_openai_streaming_to_claude_with_cancellation pyJsonValid false
      fxReq fxErrLines (fun _ => false)).events =
      openingEvents ++
        (runLoop true pyJsonValid (fun _ => false) 0 initStreamState
          (fxErrLines.take 0)).events ++
        [Event.errorEvent "api_error" "boom"] ∧
    (convert_openai_streaming_to_claude_with_cancellation pyJsonValid false
      fxReq fxErrLines (fun _ => false)).events.countP isErrorEv = 1 ∧
    (convert_openai_streaming_to_claude_with_cancellation pyJsonValid false
      fxReq fxErrLines (fun _ => false)).exit = ExitKind.failed :=
  C4_inline_error_terminates pyJsonValid false fxReq fxErrLines
    (fun _ => false) 0 ⟨some ⟨some "api_error", some "boom"⟩, [], none⟩
    ⟨some "api_error", some "boom"⟩ [] (by decide) (by decide) (by decide)
    (fun j _ => rfl)

/-! ## Claim C10 — disconnect cancels, then closes normally -/

/-- C10: when the client-disconnect signal is first observed at iteration
`i` (before any terminating chunk), the cancellation-aware translator
invokes cancel on the completion client, consumes no further chunks —
its events are exactly those of the first `i` lines — and still emits the
full normal closing sequence, with no error event anywhere in the
output. -/
theorem C10_disconnect_closes_normally (jv : String → Bool) (enable : Bool)
    (req : ClaudeMessagesRequest) (lines : List Line) (d : Nat → Bool)
    (i : Nat)
    (htake : (runLoop true jv (fun _ => false) 0 initStreamState
      (lines.take i)).exit = ExitKind.exhausted)
    (hlen : i < lines.length)
    (hd0 : ∀ j, j < i → d j = false)
    (hdi : d i = true) :
    (convert_openai_streaming_to_claude_with_cancellation jv enable req
      lines d).cancelCalled = true ∧
    (convert_openai_streaming_to_claude_with_cancellation jv enable req
      lines d).exit = ExitKind.disconnected ∧
    (convert_openai_streaming_to_claude_with_cancellation jv enable req
      lines d).events =
      openingEvents ++
        (runLoop true jv (fun _ => false) 0 initStreamState
          (lines.take i)).events ++
        closingEvents enable req
          (runLoop true jv (fun _ => false) 0 initStreamState
            (lines.take i)).state ∧
    (convert_openai_streaming_to_claude_with_cancellation jv enable req
      lines d).events.countP isErrorEv = 0 := by
  have hdec := runLoop_decompose true jv d i lines 0 initStreamState htake
    (fun j hj => by
      have := hd0 j hj
      rwa [Nat.zero_add])
  obtain ⟨l, rest', hdr⟩ : ∃ l rest', lines.drop i = l :: rest' := by
    cases hcase : lines.drop i with
    | nil =>
      rw [List.drop_eq_nil_iff] at hcase
      omega
    | cons l rest' => exact ⟨l, rest', rfl⟩
  have hdrop_run : runLoop true jv d (0 + i)
      (runLoop true jv (fun _ => false) 0 initStreamState
        (lines.take i)).state (lines.drop i) =
      ⟨[], (runLoop true jv (fun _ => false) 0 initStreamState
        (lines.take i)).state, ExitKind.disconnected, true⟩ := by
    rw [hdr]
    simp only [runLoop]
    rw [if_pos (by
      refine ⟨by trivial, ?_⟩
      rw [Nat.zero_add, hdi])]
  have hrun : runLoop true jv d 0 initStreamState lines =
      ⟨(runLoop true jv (fun _ => false) 0 initStreamState
          (lines.take i)).events,
       (runLoop true jv (fun _ => false) 0 initStreamState
         (lines.take i)).state, ExitKind.disconnected, true⟩ := by
    rw [hdec, hdrop_run]
    dsimp only
    rw [List.append_nil]
  have hnoerr : ∀ e' ∈ (runLoop true jv (fun _ => false) 0 initStreamState
      (lines.take i)).events, isErrorEv e' = false := by
    intro e' he'
    have hspec := runLoop_spec true jv (fun _ => false) (lines.take i) 0
      initStreamState streamInv_init
    exact loopEv_not_error e'
      ((hspec.2.2.1 (by rw [htake]; simp)).2 e' he')
  refine ⟨?_, ?_, ?_, ?_⟩
  · show (convert_openai_streaming_to_claude_with_cancellation jv enable req
      lines d).cancelCalled = true
    unfold convert_openai_streaming_to_claude_with_cancellation
    dsimp only
    rw [hrun]
  · show (convert_openai_streaming_to_claude_with_cancellation jv enable req
      lines d).exit = ExitKind.disconnected
    unfold convert_openai_streaming_to_claude_with_cancellation
    dsimp only
    rw [hrun]
  · show (convert_openai_streaming_to_claude_with_cancellation jv enable req
      lines d).events = _
    unfold convert_openai_streaming_to_claude_with_cancellation
    dsimp only
    rw [hrun]
    dsimp only
    rw [if_neg (by simp)]
  · show (convert_openai_streaming_to_claude_with_cancellation jv enable req
      lines d).events.countP isErrorEv = 0
    unfold convert_openai_streaming_to_claude_with_cancellation
    dsimp only
    rw [hrun]
    dsimp only
    rw [if_neg (by simp), List.countP_append, List.countP_append]
    rw [List.countP_eq_zero.2 (by
      intro a ha
      have := opening_noerr a ha
      simp [this])]
    rw [List.countP_eq_zero.2 (by
      intro a ha
      have := hnoerr a ha
      simp [this])]
    rw [List.countP_eq_zero.2 (by
      intro a ha
      have := closing_noerr enable req _ a ha
      simp [this])]

/-- Witness for C10: a disconnect observed before the first chunk of a
one-chunk stream cancels the backend request and still closes the stream
normally. -/
theorem C10_disconnect_closes_normally_witness :
    (convert_openai_streaming_to_claude_with_cancellation pyJsonValid false
      fxReq fxUsageLines (fun _ => true)).cancelCalled = true ∧
    (convert_openai_streaming_to_claude_with_cancellation pyJsonValid false
      fxReq fxUsageLines (fun _ => true)).exit = ExitKind.disconnected ∧
    (convert_openai_streaming_to_claude_with_cancellation pyJsonValid false
      fxReq fxUsageLines (fun _ => true)).events =
      openingEvents ++
        (runLoop true pyJsonValid (fun _ => false) 0 initStreamState
          (fxUsageLines.take 0)).events ++
        closingEvents false fxReq
          (runLoop true pyJsonValid (fun _ => false) 0 initStreamState
            (fxUsageLines.take 0)).state ∧
    (convert_openai_streaming_to_claude_with_cancellation pyJsonValid false
      fxReq fxUsageLines (fun _ => true)).events.countP isErrorEv = 0 :=
  C10_disconnect_closes_normally pyJsonValid false fxReq fxUsageLines
    (fun _ => true) 0 (by decide) (by decide) (fun j hj => absurd hj (by omega))
    rfl

end CCProxy
